import Mathlib

/-!
# Verification of `cnvlib/segfilters.py`

A shallow embedding of the segment-filtering module: run-length encoding of
level sequences (`enumerate_changes`), composite group keys
(`squash_by_groups`), the per-group reduction (`squash_region`), the
required-column gate (`require_column`), and the named filters the claims
mention (`ci`, `bic`, `log2`, `cn_subclone`).

Conventions of the embedding:
* pandas Series / numpy arrays become Lean `List`s, indexed positionally
  (the source asserts unique indices before grouping);
* floating point numbers become `Rat` (exact arithmetic);
* per the data model, levels and copy numbers are integer-valued, so level
  sequences are `List Int` and `.astype(int)` is the identity on them;
* Python exceptions become an `Except PyError` result: `ValueError` from the
  gate, `KeyError` from a missing-column lookup, `IndexError` from `.iat` on
  an empty frame, `AssertionError` from a failed `assert`, numpy's
  `ZeroDivisionError` from `np.average` with weights summing to zero, and
  `TypeError` from `len()` applied to the `NotImplemented` sentinel.
-/

/-- Python exception kinds that the embedded code can raise. -/
inductive PyError where
  | valueError : String → PyError
  | keyError : String → PyError
  | indexError : PyError
  | assertionError : PyError
  | zeroDivisionError : PyError
  | typeError : String → PyError
deriving DecidableEq

/-! ## RunEncoder: `enumerate_changes`

Source (`segfilters.py`):
`return levels.diff().fillna(0).abs().cumsum().astype(int)` -/

/-- Tail of `enumerate_changes`: given the previous level and the running
cumulative sum, emit the cumulative sums of `|diff|` for the rest. -/
def ecAux (prev acc : Int) : List Int → List Int
  | [] => []
  | y :: ys => (acc + |y - prev|) :: ecAux y (acc + |y - prev|) ys

/-- `enumerate_changes(levels)`: `levels.diff().fillna(0).abs().cumsum().astype(int)`.
The first diff is `NaN`, filled with 0, so the first key is 0; each later key
adds `|levels[i] - levels[i-1]|` to the previous key.  On integer levels
(the data model's level domain) `.astype(int)` is the identity. -/
def enumerate_changes : List Int → List Int
  | [] => []
  | x :: xs => 0 :: ecAux x 0 xs

/-- Closed form for the key at position `j`: the sum of `|levels[k+1] - levels[k]|`
over `k < j`. -/
def keySum (levels : List Int) : Nat → Int
  | 0 => 0
  | j + 1 => keySum levels j + |levels.getD (j + 1) 0 - levels.getD j 0|

/-! ## Data model: segment tables

A `CopyNumArray`'s dataframe is modelled column-wise.  `cols` is the list of
column names present in the table (`'x' in cnarr` becomes `"x" ∈ t.cols`); the
value lists of columns absent from `cols` are ignored by every embedded
operation.  The `end` column is called `stop` (`end` is a Lean keyword).  Per
the data model, coordinates and copy numbers (`cn`, `cn1`, `cn2`, `probes`)
are integers, while ratio/weight/fraction columns are rationals. -/

structure SegTable where
  cols : List String
  chromosome : List String
  start : List Int
  stop : List Int
  log2 : List Rat
  weight : List Rat
  gene : List String
  probes : List Int
  depth : List Rat
  baf : List Rat
  cn : List Int
  cn1 : List Int
  cn2 : List Int
  p_bintest : List Rat
  ci_lo : List Rat
  ci_hi : List Rat
  aberrant_cell_frac : List Rat
deriving DecidableEq

/-- Number of rows of the table (`len(cnarr)`). -/
def SegTable.nrows (t : SegTable) : Nat := t.chromosome.length

/-- Well-formedness: every column holds exactly one value per row. -/
def SegTable.WF (t : SegTable) : Prop :=
  t.start.length = t.nrows ∧ t.stop.length = t.nrows ∧ t.log2.length = t.nrows ∧
  t.weight.length = t.nrows ∧ t.gene.length = t.nrows ∧ t.probes.length = t.nrows ∧
  t.depth.length = t.nrows ∧ t.baf.length = t.nrows ∧ t.cn.length = t.nrows ∧
  t.cn1.length = t.nrows ∧ t.cn2.length = t.nrows ∧ t.p_bintest.length = t.nrows ∧
  t.ci_lo.length = t.nrows ∧ t.ci_hi.length = t.nrows ∧
  t.aberrant_cell_frac.length = t.nrows

instance (t : SegTable) : Decidable t.WF := by
  unfold SegTable.WF
  infer_instance

/-- One step of pandas `unique` / `drop_duplicates`: keep first occurrences. -/
def ufsStep {α : Type} [DecidableEq α] (acc : List α) (x : α) : List α :=
  if x ∈ acc then acc else acc ++ [x]

/-- The distinct values of a list in first-seen order (pandas `Series.unique`,
`Series.drop_duplicates`, `list.index` lookup tables). -/
def uniqueFirstSeen {α : Type} [DecidableEq α] (l : List α) : List α :=
  l.foldl ufsStep []

/-! ## BoundaryPartitioners and the composite group key of `squash_by_groups` -/

/-- `cnarr['chromosome'].replace(chrom_names, np.arange(len(chrom_names)))`
with `chrom_names = cnarr['chromosome'].unique()`: each row receives the
ordinal of its chromosome in first-seen order. -/
def chromOrdinals (chroms : List String) : List Nat :=
  chroms.map (fun c => (uniqueFirstSeen chroms).indexOf c)

/-- Modelled from the spec: the `by_arm=True` mode iterates `cnarr.by_arm()`
(defined in `cnary.py`, which is not among the included sources) and gives
every row of the `i`-th chromosome arm the ordinal `i`
(`np.repeat(i, len(cnarm))`, concatenated in table order).  `blockLens` lists
the arm block lengths in table order. -/
def armOrdinals (blockLens : List Nat) : List Nat :=
  (blockLens.enum.map (fun p => List.replicate p.2 p.1)).flatten

/-- The summed `_group` column of `squash_by_groups`:
`change_levels + chrom_col` (or `change_levels + np.concatenate(arm_levels)`
in arm mode). -/
def group_col (t : SegTable) (levels : List Int) (by_arm : Bool)
    (armBlocks : List Nat) : List Int :=
  List.zipWith (· + ·) (enumerate_changes levels)
    ((if by_arm then armOrdinals armBlocks else chromOrdinals t.chromosome).map
      Int.ofNat)

/-- The composite group key of `squash_by_groups`: the `_group` column, and,
when a `cn1` column is present, also the allele-specific run keys
`_g1 = enumerate_changes(cnarr['cn1'])` and
`_g2 = enumerate_changes(cnarr['cn2'])` (`groupkey = ['_group', '_g1', '_g2']`).
When `cn1` is absent the key is `['_group']` alone; it is padded with constant
components so both cases share one key type (padding never affects key
equality). -/
def group_keys (t : SegTable) (levels : List Int) (by_arm : Bool)
    (armBlocks : List Nat) : List (Int × Int × Int) :=
  if "cn1" ∈ t.cols then
    List.zipWith (fun a bc => (a, bc)) (group_col t levels by_arm armBlocks)
      (List.zipWith (fun b c => (b, c)) (enumerate_changes t.cn1)
        (enumerate_changes t.cn2))
  else (group_col t levels by_arm armBlocks).map (fun a => (a, 0, 0))

/-- Witness table for C2: two rows on different chromosomes (and, in arm mode,
different arms), equal levels, allele-specific copy numbers changing between
the rows. -/
def tC2 : SegTable :=
  { cols := ["chromosome", "start", "end", "log2", "weight", "gene", "cn",
             "cn1", "cn2"]
    chromosome := ["1", "2"]
    start := [0, 100]
    stop := [50, 150]
    log2 := [0, 0]
    weight := [1, 1]
    gene := ["g1", "g2"]
    probes := [0, 0]
    depth := [0, 0]
    baf := [0, 0]
    cn := [2, 2]
    cn1 := [1, 2]
    cn2 := [1, 0]
    p_bintest := [0, 0]
    ci_lo := [0, 0]
    ci_hi := [0, 0]
    aberrant_cell_frac := [0, 0] }

/-! ## Numeric primitives

`NaN` results of numpy reductions over empty arrays are modelled as error
results, since the claims require the absence of both errors and `NaN`s. -/

/-- Weighted arithmetic mean value: `sum(v*w) / sum(w)`. -/
def avgVal (vals ws : List Rat) : Rat :=
  (List.zipWith (· * ·) vals ws).sum / ws.sum

/-- `np.average(values, weights=w)`: raises `ZeroDivisionError` when the
weights sum to zero, otherwise the weighted mean. -/
def np_average (vals ws : List Rat) : Except PyError Rat :=
  if ws.sum = 0 then .error .zeroDivisionError else .ok (avgVal vals ws)

/-- Plain arithmetic mean value: `sum / len`. -/
def meanVal (vals : List Rat) : Rat := vals.sum / (vals.length : Rat)

/-- `np.mean(values)`: `NaN` on an empty array, otherwise the mean. -/
def np_mean (vals : List Rat) : Except PyError Rat :=
  if vals = [] then .error .zeroDivisionError else .ok (meanVal vals)

/-- Insertion into a list of (value, weight) pairs sorted by value. -/
def insertSorted (p : Rat × Rat) : List (Rat × Rat) → List (Rat × Rat)
  | [] => [p]
  | q :: qs => if p.1 ≤ q.1 then p :: q :: qs else q :: insertSorted p qs

/-- Sort (value, weight) pairs by value (`np.argsort` order). -/
def sortPairs (l : List (Rat × Rat)) : List (Rat × Rat) := l.foldr insertSorted []

/-- Insertion into a sorted list of rationals. -/
def insertRat (x : Rat) : List Rat → List Rat
  | [] => [x]
  | y :: ys => if x ≤ y then x :: y :: ys else y :: insertRat x ys

/-- Sort a list of rationals ascending. -/
def sortRats (l : List Rat) : List Rat := l.foldr insertRat []

/-- Median of a list: middle element of the sorted list, or the mean of the
two middle elements for even length (`np.median` on a nonempty array). -/
def medianVal (l : List Rat) : Rat :=
  let s := sortRats l
  if s.length % 2 = 1 then s.getD (s.length / 2) 0
  else (s.getD (s.length / 2 - 1) 0 + s.getD (s.length / 2) 0) / 2

/-- `np.median(values)`: `NaN` on an empty array, otherwise the median. -/
def np_median (vals : List Rat) : Except PyError Rat :=
  if vals = [] then .error .zeroDivisionError else .ok (medianVal vals)

/-- Walk value-sorted (value, weight) pairs, accumulating weight, and return
the first value whose cumulative weight reaches half the total (the last value
is returned unconditionally). -/
def wmGo (total : Rat) : List (Rat × Rat) → Rat → Rat
  | [], _ => 0
  | [p], _ => p.1
  | p :: rest, acc =>
      if total ≤ 2 * (acc + p.2) then p.1 else wmGo total rest (acc + p.2)

/-- Modelled from the spec: the external numeric primitive
`weighted_median(values, weights)` from the `descriptives` module (consumed as
a black-box utility; its source is not among the included files).  Per the
spec's glossary it is the median of the value set in which each value
contributes proportionally to its weight: sort the values and return the first
one whose cumulative weight reaches half the total.  The spec's contract
requires nonempty input. -/
def weighted_median (vals ws : List Rat) : Rat :=
  let ps := sortPairs (vals.zip ws)
  wmGo (ps.map Prod.snd).sum ps 0

/-- `Series.max()`: `NaN` on an empty series, otherwise the maximum. -/
def seriesMax (l : List Rat) : Except PyError Rat :=
  match l with
  | [] => .error .zeroDivisionError
  | x :: xs => .ok (xs.foldl max x)

/-- Maximum of a nonempty list (value form of `seriesMax`). -/
def maxVal (l : List Rat) : Rat :=
  match l with
  | [] => 0
  | x :: xs => xs.foldl max x

/-! ## SegmentSquasher: `squash_region` -/

/-- One output row of `squash_region` (`pd.DataFrame(out)` has exactly one row
since every value in `out` is a scalar and `chromosome` a one-element list).
Fields of output columns that are absent hold a default `0`; the actual output
column set is `squash_region_cols`. -/
structure SegRow where
  chromosome : String
  start : Int
  stop : Int
  log2 : Rat
  gene : String
  probes : Int
  weight : Rat
  depth : Rat
  baf : Rat
  cn : Rat
  cn1 : Rat
  cn2 : Rat
  p_bintest : Rat
deriving DecidableEq, Inhabited

/-- `region_weight = cnarr['weight'].sum()`. -/
def region_weight (cnarr : SegTable) : Rat := cnarr.weight.sum

/-- `out['log2']`: weighted average of `log2` by `weight` when
`region_weight > 0`, otherwise the plain mean. -/
def log2Agg (cnarr : SegTable) : Except PyError Rat :=
  if 0 < region_weight cnarr then np_average cnarr.log2 cnarr.weight
  else np_mean cnarr.log2

/-- `out['depth']` (computed only when a `depth` column is present). -/
def depthAgg (cnarr : SegTable) : Except PyError Rat :=
  if "depth" ∈ cnarr.cols then
    if 0 < region_weight cnarr then np_average cnarr.depth cnarr.weight
    else np_mean cnarr.depth
  else .ok 0

/-- `out['baf']` (computed only when a `baf` column is present). -/
def bafAgg (cnarr : SegTable) : Except PyError Rat :=
  if "baf" ∈ cnarr.cols then
    if 0 < region_weight cnarr then np_average cnarr.baf cnarr.weight
    else np_mean cnarr.baf
  else .ok 0

/-- `out['cn']`: weighted median of `cn` by `weight` when `region_weight > 0`,
else plain median (computed only when a `cn` column is present). -/
def cnAgg (cnarr : SegTable) : Except PyError Rat :=
  if "cn" ∈ cnarr.cols then
    if 0 < region_weight cnarr then
      .ok (weighted_median (cnarr.cn.map (fun z : Int => (z : Rat))) cnarr.weight)
    else np_median (cnarr.cn.map (fun z : Int => (z : Rat)))
  else .ok 0

/-- `out['cn1']` (computed only when both `cn` and `cn1` columns are
present). -/
def cn1Agg (cnarr : SegTable) : Except PyError Rat :=
  if "cn" ∈ cnarr.cols ∧ "cn1" ∈ cnarr.cols then
    if 0 < region_weight cnarr then
      .ok (weighted_median (cnarr.cn1.map (fun z : Int => (z : Rat))) cnarr.weight)
    else np_median (cnarr.cn1.map (fun z : Int => (z : Rat)))
  else .ok 0

/-- `out['p_bintest'] = cnarr['p_bintest'].max()` (when present). -/
def pbinAgg (cnarr : SegTable) : Except PyError Rat :=
  if "p_bintest" ∈ cnarr.cols then seriesMax cnarr.p_bintest else .ok 0

/-- The keys of the `out` dict built by `squash_region`, in insertion order:
this is the output table's column set (`end` is rendered as `stop` in
`SegRow` but keeps its source name here). -/
def squash_region_cols (cols : List String) : List String :=
  ["chromosome", "start", "end", "log2", "gene", "probes", "weight"]
  ++ (if "depth" ∈ cols then ["depth"] else [])
  ++ (if "baf" ∈ cols then ["baf"] else [])
  ++ (if "cn" ∈ cols then
        ["cn"] ++ (if "cn1" ∈ cols then ["cn1", "cn2"] else [])
      else [])
  ++ (if "p_bintest" ∈ cols then ["p_bintest"] else [])

/-- `squash_region(cnarr)`: reduce a table (one group) to exactly one row.
`assert 'weight' in cnarr` raises `AssertionError`; `.iat[0]` on an empty
frame raises `IndexError`; `chromosome`/`start` come from the first row,
`end` (`stop`) from the last (`.iat[-1]`); `gene` is the comma-join of the
distinct gene names in first-occurrence order; `probes` is the column sum when
present, else the group's row count; `weight` is the group's weight sum;
`cn2 = out['cn'] - out['cn1']`. -/
def squash_region (cnarr : SegTable) : Except PyError SegRow :=
  if "weight" ∉ cnarr.cols then .error .assertionError
  else if cnarr.nrows = 0 then .error .indexError
  else
    (log2Agg cnarr).bind fun l2 =>
    (depthAgg cnarr).bind fun dv =>
    (bafAgg cnarr).bind fun bv =>
    (cnAgg cnarr).bind fun cv =>
    (cn1Agg cnarr).bind fun c1 =>
    (pbinAgg cnarr).map fun pb =>
      { chromosome := cnarr.chromosome.getD 0 ""
        start := cnarr.start.getD 0 0
        stop := cnarr.stop.getD (cnarr.stop.length - 1) 0
        log2 := l2
        gene := String.intercalate "," (uniqueFirstSeen cnarr.gene)
        probes := if "probes" ∈ cnarr.cols then cnarr.probes.sum
                  else (cnarr.nrows : Int)
        weight := region_weight cnarr
        depth := dv
        baf := bv
        cn := cv
        cn1 := c1
        cn2 := cv - c1
        p_bintest := pb }

/-! ## `squash_by_groups`: partition by composite key and squash -/

/-- Row selection: the sub-table holding the given row positions in the given
order (a `groupby` group, viewed as a dataframe slice). -/
def selectRows (t : SegTable) (idxs : List Nat) : SegTable :=
  { cols := t.cols
    chromosome := idxs.map (fun i => t.chromosome.getD i "")
    start := idxs.map (fun i => t.start.getD i 0)
    stop := idxs.map (fun i => t.stop.getD i 0)
    log2 := idxs.map (fun i => t.log2.getD i 0)
    weight := idxs.map (fun i => t.weight.getD i 0)
    gene := idxs.map (fun i => t.gene.getD i "")
    probes := idxs.map (fun i => t.probes.getD i 0)
    depth := idxs.map (fun i => t.depth.getD i 0)
    baf := idxs.map (fun i => t.baf.getD i 0)
    cn := idxs.map (fun i => t.cn.getD i 0)
    cn1 := idxs.map (fun i => t.cn1.getD i 0)
    cn2 := idxs.map (fun i => t.cn2.getD i 0)
    p_bintest := idxs.map (fun i => t.p_bintest.getD i 0)
    ci_lo := idxs.map (fun i => t.ci_lo.getD i 0)
    ci_hi := idxs.map (fun i => t.ci_hi.getD i 0)
    aberrant_cell_frac := idxs.map (fun i => t.aberrant_cell_frac.getD i 0) }

/-- Apply `f` to each element, propagating the first error
(`groupby(...).apply(squash_region)` over the list of groups). -/
def exceptMap {ε α β : Type} (f : α → Except ε β) : List α → Except ε (List β)
  | [] => .ok []
  | a :: as => (f a).bind fun b => (exceptMap f as).map fun bs => b :: bs

/-- `squash_by_groups(cnarr, levels, by_arm)`: compute the composite key per
row, partition the rows by key (`groupby` with `sort=False` collects all rows
sharing a key value, groups ordered by first occurrence of their key), reduce
each group with `squash_region`, and concatenate the one-row results
(`reset_index(drop=True)`). -/
def squash_by_groups (t : SegTable) (levels : List Int) (by_arm : Bool)
    (armBlocks : List Nat) : Except PyError (List SegRow) :=
  let keys := group_keys t levels by_arm armBlocks
  exceptMap
    (fun k => squash_region (selectRows t
      ((List.range t.nrows).filter
        (fun j => decide (keys.getD j (0, 0, 0) = k)))))
    (uniqueFirstSeen keys)

/-- Output row `r` carries input row `i`'s own values, on the output columns
that the squasher recomputes from input columns that are present (`probes` is
a row count, not a row value, when the input has no `probes` column; `cn2` is
rederived as `cn - cn1`). -/
def MatchesInput (t : SegTable) (i : Nat) (r : SegRow) : Prop :=
  r.chromosome = t.chromosome.getD i "" ∧
  r.start = t.start.getD i 0 ∧
  r.stop = t.stop.getD i 0 ∧
  r.log2 = t.log2.getD i 0 ∧
  r.gene = t.gene.getD i "" ∧
  r.weight = t.weight.getD i 0 ∧
  ("probes" ∈ t.cols → r.probes = t.probes.getD i 0) ∧
  ("depth" ∈ t.cols → r.depth = t.depth.getD i 0) ∧
  ("baf" ∈ t.cols → r.baf = t.baf.getD i 0) ∧
  ("cn" ∈ t.cols → r.cn = (t.cn.getD i 0 : Rat)) ∧
  ("cn" ∈ t.cols ∧ "cn1" ∈ t.cols →
    r.cn1 = (t.cn1.getD i 0 : Rat) ∧ r.cn2 = (t.cn2.getD i 0 : Rat)) ∧
  ("p_bintest" ∈ t.cols → r.p_bintest = t.p_bintest.getD i 0)

/-- Witness table for C3: a two-row group on one chromosome. -/
def tC3 : SegTable :=
  { cols := ["chromosome", "start", "end", "log2", "weight", "gene"]
    chromosome := ["1", "1"]
    start := [0, 100]
    stop := [50, 150]
    log2 := [1/2, 3/2]
    weight := [1, 3]
    gene := ["a", "b"]
    probes := [0, 0]
    depth := [0, 0]
    baf := [0, 0]
    cn := [0, 0]
    cn1 := [0, 0]
    cn2 := [0, 0]
    p_bintest := [0, 0]
    ci_lo := [0, 0]
    ci_hi := [0, 0]
    aberrant_cell_frac := [0, 0] }

/-- Witness table for C4, zero total weight, all optional columns present. -/
def tC4z : SegTable :=
  { cols := ["chromosome", "start", "end", "log2", "weight", "gene", "depth",
             "baf", "cn", "cn1", "cn2", "p_bintest"]
    chromosome := ["1", "1"]
    start := [0, 100]
    stop := [50, 150]
    log2 := [1/2, 3/2]
    weight := [0, 0]
    gene := ["a", "b"]
    probes := [0, 0]
    depth := [10, 20]
    baf := [1/2, 1/2]
    cn := [2, 4]
    cn1 := [1, 2]
    cn2 := [1, 2]
    p_bintest := [0, 1]
    ci_lo := [0, 0]
    ci_hi := [0, 0]
    aberrant_cell_frac := [0, 0] }

/-- Witness table for C4, positive total weight. -/
def tC4p : SegTable :=
  { tC4z with weight := [1, 3] }

/-- Witness table for C5: two rows whose levels differ, so both composite
groups are singletons (no `cn1` column). -/
def tC5 : SegTable :=
  { cols := ["chromosome", "start", "end", "log2", "weight", "gene", "probes",
             "depth", "baf", "cn", "p_bintest"]
    chromosome := ["1", "1"]
    start := [0, 100]
    stop := [50, 150]
    log2 := [1/2, 3/2]
    weight := [1, 3]
    gene := ["a", "b"]
    probes := [4, 5]
    depth := [10, 20]
    baf := [1/2, 1/3]
    cn := [2, 4]
    cn1 := [0, 0]
    cn2 := [0, 0]
    p_bintest := [0, 1]
    ci_lo := [0, 0]
    ci_hi := [0, 0]
    aberrant_cell_frac := [0, 0] }

/-! ## ValidationGate: `require_column` -/

/-- The outcome a filter body delivers: a squashed table, or Python's
`NotImplemented` sentinel (returned by `bic`). -/
inductive FilterOutcome where
  | table : List SegRow → FilterOutcome
  | notImplemented : FilterOutcome
deriving DecidableEq

/-- `", ".join` of the quoted column names, as produced by formatting
`", ".join(["'{}'"] * len(colnames))` with the column names. -/
def quoteJoin : List String → String
  | [] => ""
  | [c] => "\x27" ++ c ++ "\x27"
  | c :: rest => "\x27" ++ c ++ "\x27, " ++ quoteJoin rest

/-- The gate's error message: `"'{}' filter requires column '{}'"` for a
single required column, else
`"'{}' filter requires columns " + ", ".join(["'{}'"] * len)`, formatted with
the filter name and all required column names. -/
def require_msg (filtname : String) (colnames : List String) : String :=
  match colnames with
  | [c] =>
      "\x27" ++ filtname ++ "\x27 filter requires column \x27" ++ c ++ "\x27"
  | _ =>
      "\x27" ++ filtname ++ "\x27 filter requires columns " ++
        quoteJoin colnames

/-- `len(...)` applied to a filter body's result, as evaluated eagerly for the
wrapper's log line
`logging.info("Filtered by '%s' from %d to %d rows", filtname, len(segarr), len(result))`:
a table has a length, while `len(NotImplemented)` raises `TypeError`. -/
def py_len : FilterOutcome → Except PyError Nat
  | .table rows => .ok rows.length
  | .notImplemented =>
      .error (.typeError
        "object of type \x27NotImplementedType\x27 has no len()")

/-- `require_column(*colnames)` wrapping a filter body `func`: if any required
column is missing from the table, raise `ValueError` with the message above
before invoking the body; otherwise run the body and then the
`logging.info` row-count line, whose arguments are evaluated eagerly —
`len(segarr)` always succeeds, but `len(result)` raises `TypeError` when the
body returned the `NotImplemented` sentinel.  The body's result is returned
unchanged when the logging line succeeds. -/
def require_column_wrap (filtname : String) (colnames : List String)
    (func : SegTable → Except PyError FilterOutcome) (segarr : SegTable) :
    Except PyError FilterOutcome :=
  if colnames.any (fun c => decide (c ∉ segarr.cols)) then
    .error (.valueError (require_msg filtname colnames))
  else
    (func segarr).bind fun result =>
      (py_len result).map fun _ => result

/-! ## FilterCatalog: the filters the claims mention -/

/-- Level assignment of the `ci` filter: `levels = np.zeros(len(segarr))`,
then `levels[segarr['ci_lo'].values > 0] = 1`, then
`levels[segarr['ci_hi'].values < 0] = -1` (the later write wins). -/
def ci_levels (t : SegTable) : List Int :=
  (List.range t.nrows).map (fun i =>
    let l0 : Int := 0
    let l1 := if t.ci_lo.getD i 0 > 0 then 1 else l0
    if t.ci_hi.getD i 0 < 0 then -1 else l1)

/-- Body of the `ci` filter. -/
def ci_body (segarr : SegTable) : Except PyError FilterOutcome :=
  (squash_by_groups segarr (ci_levels segarr) false []).map .table

/-- `ci = require_column('ci_lo', 'ci_hi')(...)`. -/
def ci : SegTable → Except PyError FilterOutcome :=
  require_column_wrap "ci" ["ci_lo", "ci_hi"] ci_body

/-- `bic = require_column('depth')(...)`: the body performs no computation on
the table and returns the `NotImplemented` sentinel. -/
def bic : SegTable → Except PyError FilterOutcome :=
  require_column_wrap "bic" ["depth"] (fun _ => .ok .notImplemented)

/-- `0.667*min_purity + 0.5*(1-min_purity)`. -/
def calculate_min_baf_amp (min_purity : Rat) : Rat :=
  0.667 * min_purity + 0.5 * (1 - min_purity)

/-- `1*min_purity + 0.5*(1-min_purity)`. -/
def calculate_min_baf_del (min_purity : Rat) : Rat :=
  1 * min_purity + 0.5 * (1 - min_purity)

/-- Level assignment of the `log2` filter: `levels = np.zeros(len(segarr))`,
then `levels[(segarr['log2'] > -0.15) & (segarr['baf'] < min_baf_del)] = 0`
and `levels[(segarr['log2'] < 0.14) & (segarr['baf'] < min_baf_amp)] = 0`
(both condition branches write 0). -/
def log2_levels (t : SegTable) : List Int :=
  (List.range t.nrows).map (fun i =>
    let l0 : Int := 0
    let l1 := if t.log2.getD i 0 > -0.15 ∧
        t.baf.getD i 0 < calculate_min_baf_del 0.2 then 0 else l0
    if t.log2.getD i 0 < 0.14 ∧
        t.baf.getD i 0 < calculate_min_baf_amp 0.2 then 0 else l1)

/-- Body of the `log2` filter: evaluating the level masks reads
`segarr['baf']`, which raises `KeyError('baf')` when that column is missing
(the gate requires only `log2`). -/
def log2_body (segarr : SegTable) : Except PyError FilterOutcome :=
  if "baf" ∈ segarr.cols then
    (squash_by_groups segarr (log2_levels segarr) false []).map .table
  else .error (.keyError "baf")

/-- `log2 = require_column('log2')(...)`. -/
def log2 : SegTable → Except PyError FilterOutcome :=
  require_column_wrap "log2" ["log2"] log2_body

/-- The per-row fingerprint hashed by `cn_subclone`:
`hashlib.md5(str(row[['cn1','cn2','aberrant_cell_frac']].values)).hexdigest()`.
The md5 hex digest serves only as an equality key for the fingerprint, so it
is modelled by the fingerprint tuple itself. -/
def cn_subclone_fingerprints (t : SegTable) : List (Int × Int × Rat) :=
  (List.range t.nrows).map (fun i =>
    (t.cn1.getD i 0, t.cn2.getD i 0, t.aberrant_cell_frac.getD i 0))

/-- `hash_key = list(df['hash'].unique());`
`df['level'] = df['hash'].apply(lambda x: hash_key.index(x))`: each row's
level is the first-seen ordinal of its fingerprint. -/
def cn_subclone_levels (t : SegTable) : List Int :=
  (cn_subclone_fingerprints t).map (fun h =>
    Int.ofNat ((uniqueFirstSeen (cn_subclone_fingerprints t)).indexOf h))

/-- The caller-visible column set of `segarr.data` after `cn_subclone` runs
its scratch-column code: `df = segarr.data` aliases the caller's dataframe
(`CopyNumArray.data` is a plain attribute holding it).  On a nonempty table
the `iterrows` loop's `df.loc[index, 'hash'] = ...` writes create the `hash`
column and `df['level'] = ...` the `level` column (each appended when not
already present).  On a zero-row table the loop body never runs, so when no
`hash` column pre-exists, `hash_key = list(df['hash'].unique())` raises
`KeyError('hash')` and the caller's columns are left unchanged. -/
def cn_subclone_caller_cols_after (t : SegTable) : List String :=
  if t.nrows = 0 ∧ "hash" ∉ t.cols then t.cols
  else
    t.cols ++ (if "hash" ∈ t.cols then [] else ["hash"]) ++
      (if "level" ∈ t.cols then [] else ["level"])

/-- Body of the `cn_subclone` filter: the fingerprint/level computation
followed by the grouping-and-squash call.  On a zero-row table without a
pre-existing `hash` column, the `df['hash']` lookup raises `KeyError('hash')`
before any grouping happens. -/
def cn_subclone_body (segarr : SegTable) : Except PyError FilterOutcome :=
  if segarr.nrows = 0 ∧ "hash" ∉ segarr.cols then .error (.keyError "hash")
  else (squash_by_groups segarr (cn_subclone_levels segarr) false []).map .table

/-- `cn_subclone = require_column('cn1', 'cn2', 'aberrant_cell_frac')(...)`. -/
def cn_subclone : SegTable → Except PyError FilterOutcome :=
  require_column_wrap "cn_subclone" ["cn1", "cn2", "aberrant_cell_frac"]
    cn_subclone_body

/-- Witness table for C6: has `ci_lo` but lacks `ci_hi`. -/
def tC6 : SegTable :=
  { cols := ["chromosome", "start", "end", "log2", "weight", "gene", "ci_lo"]
    chromosome := ["1"]
    start := [0]
    stop := [50]
    log2 := [0]
    weight := [1]
    gene := ["g"]
    probes := [0]
    depth := [0]
    baf := [0]
    cn := [0]
    cn1 := [0]
    cn2 := [0]
    p_bintest := [0]
    ci_lo := [1]
    ci_hi := [0]
    aberrant_cell_frac := [0] }

/-- Witness table for C7: has a `depth` column. -/
def tC7 : SegTable :=
  { tC6 with cols := ["chromosome", "start", "end", "log2", "weight", "gene",
      "depth"] }

/-- Witness table for C8: `cn_subclone`'s required columns, no scratch
columns. -/
def tC8 : SegTable :=
  { tC6 with cols := ["chromosome", "start", "end", "log2", "weight", "gene",
      "cn1", "cn2", "aberrant_cell_frac"] }

/-- Zero-row table with `cn_subclone`'s required columns and no scratch
columns: it passes the gate (which checks columns, not rows) and exercises the
`KeyError('hash')` path of `cn_subclone`. -/
def tC8e : SegTable :=
  { cols := ["chromosome", "start", "end", "log2", "weight", "gene",
             "cn1", "cn2", "aberrant_cell_frac"]
    chromosome := []
    start := []
    stop := []
    log2 := []
    weight := []
    gene := []
    probes := []
    depth := []
    baf := []
    cn := []
    cn1 := []
    cn2 := []
    p_bintest := []
    ci_lo := []
    ci_hi := []
    aberrant_cell_frac := [] }

/-- Counterexample table for C9: two rows on one chromosome whose
allele-specific `cn1`/`cn2` values change between the rows. -/
def tC9 : SegTable :=
  { cols := ["chromosome", "start", "end", "log2", "baf", "weight", "gene",
             "cn", "cn1", "cn2"]
    chromosome := ["1", "1"]
    start := [0, 100]
    stop := [50, 150]
    log2 := [0, 0]
    weight := [1, 1]
    gene := ["a", "b"]
    probes := [0, 0]
    depth := [0, 0]
    baf := [1/2, 1/2]
    cn := [2, 2]
    cn1 := [1, 2]
    cn2 := [1, 0]
    p_bintest := [0, 0]
    ci_lo := [0, 0]
    ci_hi := [0, 0]
    aberrant_cell_frac := [0, 0] }

/-- Witness table for the amended C9: no `cn1` column, two chromosomes. -/
def tC9b : SegTable :=
  { tC9 with
    cols := ["chromosome", "start", "end", "log2", "baf", "weight", "gene"]
    chromosome := ["1", "2"] }

/-- Witness table for C10: has `log2` but lacks `baf`. -/
def tC10 : SegTable :=
  { tC6 with cols := ["chromosome", "start", "end", "log2", "weight", "gene"] }

theorem ecAux_length (prev acc : Int) (ys : List Int) :
    (ecAux prev acc ys).length = ys.length := by
  induction ys generalizing prev acc with
  | nil => rfl
  | cons y ys ih => simp [ecAux, ih]

theorem enumerate_changes_length (levels : List Int) :
    (enumerate_changes levels).length = levels.length := by
  cases levels with
  | nil => rfl
  | cons x xs => simp [enumerate_changes, ecAux_length]

theorem keySum_cons (x : Int) (l : List Int) (j : Nat) :
    keySum (x :: l) (j + 1) = |l.getD 0 0 - x| + keySum l j := by
  induction j with
  | zero => simp [keySum]
  | succ j ih =>
      rw [show j + 1 + 1 = (j + 1) + 1 from rfl, keySum, ih, keySum]
      simp [List.getD]
      ring

theorem ecAux_getD (ys : List Int) :
    ∀ (prev acc : Int) (j : Nat), j < ys.length →
      (ecAux prev acc ys).getD j 0 = acc + keySum (prev :: ys) (j + 1) := by
  induction ys with
  | nil => intro _ _ j h; simp at h
  | cons y ys ih =>
      intro prev acc j hj
      cases j with
      | zero => simp [ecAux, keySum, List.getD]
      | succ j =>
          have hj' : j < ys.length := by simpa using hj
          have := ih y (acc + |y - prev|) j hj'
          calc (ecAux prev acc (y :: ys)).getD (j + 1) 0
              = (ecAux y (acc + |y - prev|) ys).getD j 0 := by simp [ecAux, List.getD]
            _ = acc + |y - prev| + keySum (y :: ys) (j + 1) := this
            _ = acc + keySum (prev :: y :: ys) (j + 1 + 1) := by
                  rw [keySum_cons prev (y :: ys) (j + 1)]
                  simp [List.getD]
                  ring

theorem enumerate_changes_getD (levels : List Int) (j : Nat) (hj : j < levels.length) :
    (enumerate_changes levels).getD j 0 = keySum levels j := by
  cases levels with
  | nil => simp at hj
  | cons x xs =>
      cases j with
      | zero => simp [enumerate_changes, keySum, List.getD]
      | succ j =>
          have hj' : j < xs.length := by simpa using hj
          have := ecAux_getD xs x 0 j hj'
          calc (enumerate_changes (x :: xs)).getD (j + 1) 0
              = (ecAux x 0 xs).getD j 0 := by simp [enumerate_changes, List.getD]
            _ = 0 + keySum (x :: xs) (j + 1) := this
            _ = keySum (x :: xs) (j + 1) := by ring

theorem keySum_mono (levels : List Int) {i j : Nat} (h : i ≤ j) :
    keySum levels i ≤ keySum levels j := by
  induction j with
  | zero => simp_all
  | succ j ih =>
      rcases Nat.lt_or_ge i (j + 1) with hlt | hge
      · have : keySum levels i ≤ keySum levels j := ih (Nat.lt_succ_iff.mp hlt)
        have habs : (0 : Int) ≤ |levels.getD (j + 1) 0 - levels.getD j 0| := abs_nonneg _
        calc keySum levels i ≤ keySum levels j := this
          _ ≤ keySum levels (j + 1) := by rw [keySum]; omega
      · have : i = j + 1 := le_antisymm h hge
        simp [this]

theorem keySum_eq_iff (levels : List Int) (i : Nat) :
    ∀ j, i ≤ j →
      (keySum levels i = keySum levels j ↔
        ∀ k, i ≤ k → k < j → levels.getD k 0 = levels.getD (k + 1) 0) := by
  intro j
  induction j with
  | zero =>
      intro h
      have : i = 0 := Nat.le_zero.mp h
      subst this
      simp
  | succ j ih =>
      intro h
      rcases Nat.lt_or_ge i (j + 1) with hlt | hge
      · have hij : i ≤ j := Nat.lt_succ_iff.mp hlt
        have hmono : keySum levels i ≤ keySum levels j := keySum_mono levels hij
        have habs : (0 : Int) ≤ |levels.getD (j + 1) 0 - levels.getD j 0| := abs_nonneg _
        constructor
        · intro heq k hik hk
          have hstep : keySum levels (j + 1) = keySum levels j +
              |levels.getD (j + 1) 0 - levels.getD j 0| := rfl
          have hz : |levels.getD (j + 1) 0 - levels.getD j 0| = 0 ∧
              keySum levels i = keySum levels j := by
            constructor <;> omega
          rcases Nat.lt_or_ge k j with hkj | hkj
          · exact ((ih hij).mp hz.2) k hik hkj
          · have : k = j := by omega
            subst this
            have := abs_eq_zero.mp hz.1
            omega
        · intro hconst
          have h1 : keySum levels i = keySum levels j :=
            (ih hij).mpr (fun k hik hk => hconst k hik (by omega))
          have h2 : levels.getD j 0 = levels.getD (j + 1) 0 := hconst j hij (by omega)
          have hstep : keySum levels (j + 1) = keySum levels j +
              |levels.getD (j + 1) 0 - levels.getD j 0| := rfl
          rw [hstep, ← h2]
          simp [h1]
      · have : i = j + 1 := le_antisymm h hge
        subst this
        constructor
        · intro _ k h1 h2
          omega
        · intro _
          rfl

/-- Between positions of a constant stretch, all levels agree with the left end. -/
theorem getD_const_of_adjacent (levels : List Int) (i : Nat) :
    ∀ m, i ≤ m →
      (∀ k, i ≤ k → k < m → levels.getD k 0 = levels.getD (k + 1) 0) →
      levels.getD m 0 = levels.getD i 0 := by
  intro m
  induction m with
  | zero =>
      intro h _
      have : i = 0 := Nat.le_zero.mp h
      simp [this]
  | succ m ih =>
      intro h hconst
      rcases Nat.lt_or_ge i (m + 1) with hlt | hge
      · have him : i ≤ m := Nat.lt_succ_iff.mp hlt
        have h1 : levels.getD m 0 = levels.getD i 0 :=
          ih him (fun k hik hk => hconst k hik (by omega))
        have h2 : levels.getD m 0 = levels.getD (m + 1) 0 := hconst m him (by omega)
        omega
      · have : i = m + 1 := le_antisymm h hge
        simp [this]

/-- **C1.** For every (integer) level sequence, `enumerate_changes` assigns two
rows equal keys iff they belong to the same maximal run of consecutive equal
levels (equivalently: iff every adjacent pair of levels between the two rows is
equal); in particular adjacent rows get equal keys iff their levels are equal,
and two occurrences of the same level separated by a row with a different level
in between receive different keys. -/
theorem C1_enumerate_changes_run_keys (levels : List Int) (i j : Nat)
    (hij : i ≤ j) (hj : j < levels.length) :
    ((enumerate_changes levels).getD i 0 = (enumerate_changes levels).getD j 0 ↔
      ∀ k, i ≤ k → k < j → levels.getD k 0 = levels.getD (k + 1) 0)
    ∧ (j = i + 1 →
      ((enumerate_changes levels).getD i 0 = (enumerate_changes levels).getD j 0 ↔
        levels.getD i 0 = levels.getD j 0))
    ∧ (∀ m, i < m → m < j → levels.getD i 0 = levels.getD j 0 →
        levels.getD m 0 ≠ levels.getD i 0 →
        (enumerate_changes levels).getD i 0 ≠ (enumerate_changes levels).getD j 0) := by
  have hi : i < levels.length := lt_of_le_of_lt hij hj
  have hmain : (enumerate_changes levels).getD i 0 = (enumerate_changes levels).getD j 0 ↔
      ∀ k, i ≤ k → k < j → levels.getD k 0 = levels.getD (k + 1) 0 := by
    rw [enumerate_changes_getD levels i hi, enumerate_changes_getD levels j hj]
    exact keySum_eq_iff levels i j hij
  refine ⟨hmain, ?_, ?_⟩
  · intro hji
    subst hji
    rw [hmain]
    constructor
    · intro h
      exact h i (le_refl i) (by omega)
    · intro h k h1 h2
      have : k = i := by omega
      subst this
      exact h
  · intro m him hmj hsame hdiff heq
    have hconst := hmain.mp heq
    have : levels.getD m 0 = levels.getD i 0 :=
      getD_const_of_adjacent levels i m (by omega)
        (fun k hik hk => hconst k hik (by omega))
    exact hdiff this

theorem C1_enumerate_changes_run_keys_witness :
    (enumerate_changes [5, 2, 5]).getD 0 0 ≠ (enumerate_changes [5, 2, 5]).getD 2 0 :=
  (C1_enumerate_changes_run_keys [5, 2, 5] 0 2 (by decide) (by decide)).2.2 1
    (by decide) (by decide) (by decide) (by decide)

/-! ## List access utilities -/

theorem zipWith_getD {α β γ : Type} (f : α → β → γ) (a : List α) (b : List β)
    (i : Nat) (da : α) (db : β) (dc : γ) (ha : i < a.length) (hb : i < b.length) :
    (List.zipWith f a b).getD i dc = f (a.getD i da) (b.getD i db) := by
  induction a generalizing b i with
  | nil => simp at ha
  | cons x xs ih =>
      cases b with
      | nil => simp at hb
      | cons y ys =>
          cases i with
          | zero => simp [List.getD]
          | succ i =>
              simpa [List.getD] using ih ys i (by simpa using ha) (by simpa using hb)

theorem map_getD {α β : Type} (f : α → β) (l : List α) (i : Nat) (d : α) (db : β)
    (h : i < l.length) : (l.map f).getD i db = f (l.getD i d) := by
  induction l generalizing i with
  | nil => simp at h
  | cons x xs ih =>
      cases i with
      | zero => simp [List.getD]
      | succ i => simpa [List.getD] using ih i (by simpa using h)

theorem getD_mem {α : Type} (l : List α) (i : Nat) (d : α) (h : i < l.length) :
    l.getD i d ∈ l := by
  induction l generalizing i with
  | nil => simp at h
  | cons x xs ih =>
      cases i with
      | zero => simp [List.getD]
      | succ i =>
          have h' : (x :: xs).getD (i + 1) d = xs.getD i d := by simp [List.getD]
          rw [h']
          exact List.mem_cons_of_mem _ (ih i (by simpa using h))

/-! ## First-seen deduplication -/

theorem foldl_ufsStep_mem {α : Type} [DecidableEq α] (l : List α) :
    ∀ (acc : List α) (x : α), x ∈ l.foldl ufsStep acc ↔ x ∈ acc ∨ x ∈ l := by
  induction l with
  | nil => intro acc x; simp
  | cons y l ih =>
      intro acc x
      rw [List.foldl_cons, ih]
      by_cases hy : y ∈ acc
      · simp only [ufsStep, if_pos hy, List.mem_cons]
        constructor
        · rintro (h | h)
          · exact Or.inl h
          · exact Or.inr (Or.inr h)
        · rintro (h | h | h)
          · exact Or.inl h
          · subst h; exact Or.inl hy
          · exact Or.inr h
      · simp only [ufsStep, if_neg hy, List.mem_append, List.mem_singleton,
          List.mem_cons]
        tauto

theorem mem_uniqueFirstSeen {α : Type} [DecidableEq α] (l : List α) (x : α) :
    x ∈ uniqueFirstSeen l ↔ x ∈ l := by
  unfold uniqueFirstSeen
  rw [foldl_ufsStep_mem]
  simp

theorem foldl_ufsStep_nodup {α : Type} [DecidableEq α] (l : List α) :
    ∀ acc : List α, acc.Nodup → (l.foldl ufsStep acc).Nodup := by
  induction l with
  | nil => intro acc h; simpa using h
  | cons y l ih =>
      intro acc h
      rw [List.foldl_cons]
      apply ih
      by_cases hy : y ∈ acc
      · simpa [ufsStep, hy] using h
      · rw [ufsStep, if_neg hy]
        exact List.Nodup.append h (List.nodup_singleton y)
          (by simpa [List.disjoint_singleton] using hy)

theorem nodup_uniqueFirstSeen {α : Type} [DecidableEq α] (l : List α) :
    (uniqueFirstSeen l).Nodup :=
  foldl_ufsStep_nodup l [] List.nodup_nil

theorem foldl_ufsStep_of_nodup {α : Type} [DecidableEq α] (l : List α) :
    ∀ acc : List α, (acc ++ l).Nodup → l.foldl ufsStep acc = acc ++ l := by
  induction l with
  | nil => intro acc _; simp
  | cons y l ih =>
      intro acc h
      have hy : y ∉ acc := by
        intro hmem
        exact (List.disjoint_of_nodup_append h) hmem (List.mem_cons_self y l)
      rw [List.foldl_cons, ufsStep, if_neg hy,
        ih (acc ++ [y]) (by simpa [List.append_assoc] using h)]
      simp

theorem uniqueFirstSeen_of_nodup {α : Type} [DecidableEq α] (l : List α)
    (h : l.Nodup) : uniqueFirstSeen l = l := by
  simpa using foldl_ufsStep_of_nodup l [] (by simpa using h)

/-- Keys of adjacent rows with equal levels are equal. -/
theorem enumerate_changes_adjacent_eq (levels : List Int) (i : Nat)
    (h : i + 1 < levels.length) (heq : levels.getD i 0 = levels.getD (i + 1) 0) :
    (enumerate_changes levels).getD (i + 1) 0 = (enumerate_changes levels).getD i 0 := by
  rw [enumerate_changes_getD levels (i + 1) h,
    enumerate_changes_getD levels i (by omega)]
  show keySum levels i + |levels.getD (i + 1) 0 - levels.getD i 0| = keySum levels i
  rw [heq]
  simp

/-! ## C2: the composite key separates chromosome/arm and allele boundaries -/

theorem group_col_length (t : SegTable) (levels : List Int) (by_arm : Bool)
    (armBlocks : List Nat) (hlev : levels.length = t.nrows)
    (harm : by_arm = true → (armOrdinals armBlocks).length = t.nrows) :
    (group_col t levels by_arm armBlocks).length = t.nrows := by
  cases by_arm with
  | false =>
      simp [group_col, enumerate_changes_length, hlev, chromOrdinals,
        SegTable.nrows]
  | true =>
      simp [group_col, enumerate_changes_length, hlev, harm rfl]

theorem group_col_getD_false (t : SegTable) (levels : List Int)
    (armBlocks : List Nat) (j : Nat) (hlev : levels.length = t.nrows)
    (hj : j < t.nrows) :
    (group_col t levels false armBlocks).getD j 0 =
      (enumerate_changes levels).getD j 0 +
        Int.ofNat ((uniqueFirstSeen t.chromosome).indexOf
          (t.chromosome.getD j "")) := by
  have h1 : j < (enumerate_changes levels).length := by
    rw [enumerate_changes_length, hlev]; exact hj
  have h2 : j < ((chromOrdinals t.chromosome).map Int.ofNat).length := by
    simpa [chromOrdinals, SegTable.nrows] using hj
  have h3 : j < t.chromosome.length := hj
  rw [group_col]
  simp only [Bool.false_eq_true, if_neg (by simp : ¬False)]
  rw [zipWith_getD _ _ _ j 0 0 0 h1 h2,
    map_getD Int.ofNat _ j 0 0 (by simpa [chromOrdinals, SegTable.nrows] using hj)]
  rw [chromOrdinals, map_getD _ _ j "" 0 h3]

theorem group_col_getD_true (t : SegTable) (levels : List Int)
    (armBlocks : List Nat) (j : Nat) (hlev : levels.length = t.nrows)
    (harm : (armOrdinals armBlocks).length = t.nrows) (hj : j < t.nrows) :
    (group_col t levels true armBlocks).getD j 0 =
      (enumerate_changes levels).getD j 0 +
        Int.ofNat ((armOrdinals armBlocks).getD j 0) := by
  have h1 : j < (enumerate_changes levels).length := by
    rw [enumerate_changes_length, hlev]; exact hj
  have h2 : j < ((armOrdinals armBlocks).map Int.ofNat).length := by
    simpa [harm] using hj
  rw [group_col]
  rw [show (if true = true then armOrdinals armBlocks
      else chromOrdinals t.chromosome) = armOrdinals armBlocks from rfl]
  rw [zipWith_getD _ _ _ j 0 0 0 h1 h2,
    map_getD Int.ofNat _ j 0 0 (by simpa [harm] using hj)]

theorem group_keys_getD (t : SegTable) (levels : List Int) (by_arm : Bool)
    (armBlocks : List Nat) (j : Nat) (hWF : t.WF)
    (hlev : levels.length = t.nrows)
    (harm : by_arm = true → (armOrdinals armBlocks).length = t.nrows)
    (hj : j < t.nrows) :
    (group_keys t levels by_arm armBlocks).getD j (0, 0, 0) =
      ((group_col t levels by_arm armBlocks).getD j 0,
        (if "cn1" ∈ t.cols then (enumerate_changes t.cn1).getD j 0 else 0),
        (if "cn1" ∈ t.cols then (enumerate_changes t.cn2).getD j 0 else 0)) := by
  have hgc : j < (group_col t levels by_arm armBlocks).length := by
    rw [group_col_length t levels by_arm armBlocks hlev harm]; exact hj
  by_cases hcn1 : "cn1" ∈ t.cols
  · have hg1 : j < (enumerate_changes t.cn1).length := by
      rw [enumerate_changes_length, hWF.2.2.2.2.2.2.2.2.2.1]; exact hj
    have hg2 : j < (enumerate_changes t.cn2).length := by
      rw [enumerate_changes_length, hWF.2.2.2.2.2.2.2.2.2.2.1]; exact hj
    rw [group_keys, if_pos hcn1]
    rw [zipWith_getD _ _ _ j 0 ((0 : Int), (0 : Int)) _ hgc (by simpa using ⟨hg1, hg2⟩)]
    rw [zipWith_getD _ _ _ j 0 0 _ hg1 hg2]
    simp [hcn1]
  · rw [group_keys, if_neg hcn1]
    rw [map_getD _ _ j 0 _ hgc]
    simp [hcn1]

/-- **C2.** Under the composite group key built by `squash_by_groups`, two
adjacent rows with equal level but (a) different chromosome (default mode), or
(b) different arm ordinal (arm mode), or (c), when a `cn1` column is present,
different `cn1`-run or `cn2`-run key, never receive the same composite key, so
they are never placed in the same group. -/
theorem C2_composite_key_boundaries (t : SegTable) (levels : List Int)
    (armBlocks : List Nat) (i : Nat) (hWF : t.WF)
    (hlev : levels.length = t.nrows) (hi : i + 1 < t.nrows)
    (harm : (armOrdinals armBlocks).length = t.nrows)
    (hlevels_eq : levels.getD i 0 = levels.getD (i + 1) 0) :
    (t.chromosome.getD i "" ≠ t.chromosome.getD (i + 1) "" →
      (group_keys t levels false armBlocks).getD i (0, 0, 0) ≠
        (group_keys t levels false armBlocks).getD (i + 1) (0, 0, 0))
    ∧ ((armOrdinals armBlocks).getD i 0 ≠ (armOrdinals armBlocks).getD (i + 1) 0 →
      (group_keys t levels true armBlocks).getD i (0, 0, 0) ≠
        (group_keys t levels true armBlocks).getD (i + 1) (0, 0, 0))
    ∧ ("cn1" ∈ t.cols →
      ((enumerate_changes t.cn1).getD i 0 ≠ (enumerate_changes t.cn1).getD (i + 1) 0 ∨
        (enumerate_changes t.cn2).getD i 0 ≠ (enumerate_changes t.cn2).getD (i + 1) 0) →
      (group_keys t levels false armBlocks).getD i (0, 0, 0) ≠
        (group_keys t levels false armBlocks).getD (i + 1) (0, 0, 0)) := by
  have hi' : i < t.nrows := by omega
  have hcl : (enumerate_changes levels).getD (i + 1) 0 =
      (enumerate_changes levels).getD i 0 :=
    enumerate_changes_adjacent_eq levels i (by omega) hlevels_eq
  have hkeyF_i := group_keys_getD t levels false armBlocks i hWF hlev
    (by intro h; cases h) hi'
  have hkeyF_i1 := group_keys_getD t levels false armBlocks (i + 1) hWF hlev
    (by intro h; cases h) hi
  have hkeyT_i := group_keys_getD t levels true armBlocks i hWF hlev
    (fun _ => harm) hi'
  have hkeyT_i1 := group_keys_getD t levels true armBlocks (i + 1) hWF hlev
    (fun _ => harm) hi
  refine ⟨?_, ?_, ?_⟩
  · intro hchrom heq
    rw [hkeyF_i, hkeyF_i1] at heq
    have h1 : (group_col t levels false armBlocks).getD i 0 =
        (group_col t levels false armBlocks).getD (i + 1) 0 :=
      congrArg Prod.fst heq
    rw [group_col_getD_false t levels armBlocks i hlev hi',
      group_col_getD_false t levels armBlocks (i + 1) hlev hi, hcl] at h1
    have h2 : (uniqueFirstSeen t.chromosome).indexOf (t.chromosome.getD i "") =
        (uniqueFirstSeen t.chromosome).indexOf (t.chromosome.getD (i + 1) "") :=
      Int.ofNat.inj (add_left_cancel h1)
    have hm1 : t.chromosome.getD i "" ∈ uniqueFirstSeen t.chromosome :=
      (mem_uniqueFirstSeen _ _).mpr (getD_mem _ i "" hi')
    have hm2 : t.chromosome.getD (i + 1) "" ∈ uniqueFirstSeen t.chromosome :=
      (mem_uniqueFirstSeen _ _).mpr (getD_mem _ (i + 1) "" hi)
    exact hchrom ((List.indexOf_inj hm1 hm2).mp h2)
  · intro harm_ne heq
    rw [hkeyT_i, hkeyT_i1] at heq
    have h1 : (group_col t levels true armBlocks).getD i 0 =
        (group_col t levels true armBlocks).getD (i + 1) 0 :=
      congrArg Prod.fst heq
    rw [group_col_getD_true t levels armBlocks i hlev harm hi',
      group_col_getD_true t levels armBlocks (i + 1) hlev harm hi, hcl] at h1
    exact harm_ne (Int.ofNat.inj (add_left_cancel h1))
  · intro hcn1 hdisj heq
    rw [hkeyF_i, hkeyF_i1] at heq
    have h2 : (if "cn1" ∈ t.cols then (enumerate_changes t.cn1).getD i 0 else 0) =
        (if "cn1" ∈ t.cols then (enumerate_changes t.cn1).getD (i + 1) 0 else 0) :=
      congrArg (fun p => p.2.1) heq
    have h3 : (if "cn1" ∈ t.cols then (enumerate_changes t.cn2).getD i 0 else 0) =
        (if "cn1" ∈ t.cols then (enumerate_changes t.cn2).getD (i + 1) 0 else 0) :=
      congrArg (fun p => p.2.2) heq
    simp only [if_pos hcn1] at h2 h3
    rcases hdisj with h | h
    · exact h h2
    · exact h h3

theorem C2_composite_key_boundaries_witness :
    ((group_keys tC2 [0, 0] false [1, 1]).getD 0 (0, 0, 0) ≠
      (group_keys tC2 [0, 0] false [1, 1]).getD 1 (0, 0, 0))
    ∧ ((group_keys tC2 [0, 0] true [1, 1]).getD 0 (0, 0, 0) ≠
      (group_keys tC2 [0, 0] true [1, 1]).getD 1 (0, 0, 0)) :=
  ⟨(C2_composite_key_boundaries tC2 [0, 0] [1, 1] 0 (by decide) (by decide)
      (by decide) (by decide) (by decide)).1 (by decide),
    (C2_composite_key_boundaries tC2 [0, 0] [1, 1] 0 (by decide) (by decide)
      (by decide) (by decide) (by decide)).2.1 (by decide)⟩

/-! ## `squash_region`: evaluation lemmas -/

theorem except_ok_bind {ε α β : Type} (a : α) (f : α → Except ε β) :
    (Except.ok a : Except ε α).bind f = f a := rfl

theorem except_ok_map {ε α β : Type} (a : α) (f : α → β) :
    (Except.ok a : Except ε α).map f = .ok (f a) := rfl

theorem np_average_ok (vals ws : List Rat) (h : ws.sum ≠ 0) :
    np_average vals ws = .ok (avgVal vals ws) := by
  rw [np_average, if_neg h]

theorem np_mean_ok (vals : List Rat) (h : vals ≠ []) :
    np_mean vals = .ok (meanVal vals) := by
  rw [np_mean, if_neg h]

theorem np_median_ok (vals : List Rat) (h : vals ≠ []) :
    np_median vals = .ok (medianVal vals) := by
  rw [np_median, if_neg h]

theorem seriesMax_ok (l : List Rat) (h : l ≠ []) :
    seriesMax l = .ok (maxVal l) := by
  cases l with
  | nil => exact absurd rfl h
  | cons x xs => rfl

theorem length_ne_zero_of_eq {α : Type} (l : List α) (n : Nat)
    (hl : l.length = n) (hn : n ≠ 0) : l ≠ [] := by
  intro h
  subst h
  simp at hl
  omega

theorem log2Agg_ok (t : SegTable) (hlen : t.log2.length = t.nrows)
    (h0 : t.nrows ≠ 0) :
    log2Agg t = .ok (if 0 < region_weight t then avgVal t.log2 t.weight
      else meanVal t.log2) := by
  by_cases hrw : 0 < region_weight t
  · rw [log2Agg, if_pos hrw, if_pos hrw,
      np_average_ok _ _ (ne_of_gt hrw)]
  · rw [log2Agg, if_neg hrw, if_neg hrw,
      np_mean_ok _ (length_ne_zero_of_eq _ _ hlen h0)]

theorem depthAgg_ok (t : SegTable) (hlen : t.depth.length = t.nrows)
    (h0 : t.nrows ≠ 0) :
    depthAgg t = .ok (if "depth" ∈ t.cols then
      (if 0 < region_weight t then avgVal t.depth t.weight else meanVal t.depth)
      else 0) := by
  by_cases hd : "depth" ∈ t.cols
  · by_cases hrw : 0 < region_weight t
    · rw [depthAgg, if_pos hd, if_pos hrw, if_pos hd, if_pos hrw,
        np_average_ok _ _ (ne_of_gt hrw)]
    · rw [depthAgg, if_pos hd, if_neg hrw, if_pos hd, if_neg hrw,
        np_mean_ok _ (length_ne_zero_of_eq _ _ hlen h0)]
  · rw [depthAgg, if_neg hd, if_neg hd]

theorem bafAgg_ok (t : SegTable) (hlen : t.baf.length = t.nrows)
    (h0 : t.nrows ≠ 0) :
    bafAgg t = .ok (if "baf" ∈ t.cols then
      (if 0 < region_weight t then avgVal t.baf t.weight else meanVal t.baf)
      else 0) := by
  by_cases hb : "baf" ∈ t.cols
  · by_cases hrw : 0 < region_weight t
    · rw [bafAgg, if_pos hb, if_pos hrw, if_pos hb, if_pos hrw,
        np_average_ok _ _ (ne_of_gt hrw)]
    · rw [bafAgg, if_pos hb, if_neg hrw, if_pos hb, if_neg hrw,
        np_mean_ok _ (length_ne_zero_of_eq _ _ hlen h0)]
  · rw [bafAgg, if_neg hb, if_neg hb]

theorem cnAgg_ok (t : SegTable) (hlen : t.cn.length = t.nrows)
    (h0 : t.nrows ≠ 0) :
    cnAgg t = .ok (if "cn" ∈ t.cols then
      (if 0 < region_weight t then
        weighted_median (t.cn.map (fun z : Int => (z : Rat))) t.weight
      else medianVal (t.cn.map (fun z : Int => (z : Rat))))
      else 0) := by
  have hne : (t.cn.map (fun z : Int => (z : Rat))) ≠ [] := by
    refine length_ne_zero_of_eq _ t.nrows ?_ h0
    rw [List.length_map]
    exact hlen
  by_cases hc : "cn" ∈ t.cols
  · by_cases hrw : 0 < region_weight t
    · rw [cnAgg, if_pos hc, if_pos hrw, if_pos hc, if_pos hrw]
    · rw [cnAgg, if_pos hc, if_neg hrw, if_pos hc, if_neg hrw,
        np_median_ok _ hne]
  · rw [cnAgg, if_neg hc, if_neg hc]

theorem cn1Agg_ok (t : SegTable) (hlen : t.cn1.length = t.nrows)
    (h0 : t.nrows ≠ 0) :
    cn1Agg t = .ok (if "cn" ∈ t.cols ∧ "cn1" ∈ t.cols then
      (if 0 < region_weight t then
        weighted_median (t.cn1.map (fun z : Int => (z : Rat))) t.weight
      else medianVal (t.cn1.map (fun z : Int => (z : Rat))))
      else 0) := by
  have hne : (t.cn1.map (fun z : Int => (z : Rat))) ≠ [] := by
    refine length_ne_zero_of_eq _ t.nrows ?_ h0
    rw [List.length_map]
    exact hlen
  by_cases hc : "cn" ∈ t.cols ∧ "cn1" ∈ t.cols
  · by_cases hrw : 0 < region_weight t
    · rw [cn1Agg, if_pos hc, if_pos hrw, if_pos hc, if_pos hrw]
    · rw [cn1Agg, if_pos hc, if_neg hrw, if_pos hc, if_neg hrw,
        np_median_ok _ hne]
  · rw [cn1Agg, if_neg hc, if_neg hc]

theorem pbinAgg_ok (t : SegTable) (hlen : t.p_bintest.length = t.nrows)
    (h0 : t.nrows ≠ 0) :
    pbinAgg t = .ok (if "p_bintest" ∈ t.cols then maxVal t.p_bintest else 0) := by
  by_cases hp : "p_bintest" ∈ t.cols
  · rw [pbinAgg, if_pos hp, if_pos hp,
      seriesMax_ok _ (length_ne_zero_of_eq _ _ hlen h0)]
  · rw [pbinAgg, if_neg hp, if_neg hp]

/-- Full evaluation of `squash_region` on a well-formed nonempty group with a
`weight` column: it always succeeds, with every output field in closed form. -/
theorem squash_region_eq (t : SegTable) (hWF : t.WF) (hw : "weight" ∈ t.cols)
    (h0 : t.nrows ≠ 0) :
    squash_region t = .ok
      { chromosome := t.chromosome.getD 0 ""
        start := t.start.getD 0 0
        stop := t.stop.getD (t.stop.length - 1) 0
        log2 := if 0 < region_weight t then avgVal t.log2 t.weight
                else meanVal t.log2
        gene := String.intercalate "," (uniqueFirstSeen t.gene)
        probes := if "probes" ∈ t.cols then t.probes.sum else (t.nrows : Int)
        weight := region_weight t
        depth := if "depth" ∈ t.cols then
            (if 0 < region_weight t then avgVal t.depth t.weight
             else meanVal t.depth) else 0
        baf := if "baf" ∈ t.cols then
            (if 0 < region_weight t then avgVal t.baf t.weight
             else meanVal t.baf) else 0
        cn := if "cn" ∈ t.cols then
            (if 0 < region_weight t then
              weighted_median (t.cn.map (fun z : Int => (z : Rat))) t.weight
             else medianVal (t.cn.map (fun z : Int => (z : Rat)))) else 0
        cn1 := if "cn" ∈ t.cols ∧ "cn1" ∈ t.cols then
            (if 0 < region_weight t then
              weighted_median (t.cn1.map (fun z : Int => (z : Rat))) t.weight
             else medianVal (t.cn1.map (fun z : Int => (z : Rat)))) else 0
        cn2 := (if "cn" ∈ t.cols then
            (if 0 < region_weight t then
              weighted_median (t.cn.map (fun z : Int => (z : Rat))) t.weight
             else medianVal (t.cn.map (fun z : Int => (z : Rat)))) else 0) -
          (if "cn" ∈ t.cols ∧ "cn1" ∈ t.cols then
            (if 0 < region_weight t then
              weighted_median (t.cn1.map (fun z : Int => (z : Rat))) t.weight
             else medianVal (t.cn1.map (fun z : Int => (z : Rat)))) else 0)
        p_bintest := if "p_bintest" ∈ t.cols then maxVal t.p_bintest else 0 } := by
  rw [squash_region, if_neg (not_not_intro hw), if_neg h0,
    log2Agg_ok t hWF.2.2.1 h0, except_ok_bind,
    depthAgg_ok t hWF.2.2.2.2.2.2.1 h0, except_ok_bind,
    bafAgg_ok t hWF.2.2.2.2.2.2.2.1 h0, except_ok_bind,
    cnAgg_ok t hWF.2.2.2.2.2.2.2.2.1 h0, except_ok_bind,
    cn1Agg_ok t hWF.2.2.2.2.2.2.2.2.2.1 h0, except_ok_bind,
    pbinAgg_ok t hWF.2.2.2.2.2.2.2.2.2.2.2.1 h0, except_ok_map]

/-- **C3.** For every non-empty well-formed group with a `weight` column,
`squash_region` succeeds and produces exactly one output row (structurally:
one `SegRow`), whose chromosome and start come from the group's first row,
whose end comes from the group's last row, and whose weight is the sum of the
group's `weight` column. -/
theorem C3_squash_region_bounds_weight (t : SegTable) (hWF : t.WF)
    (hw : "weight" ∈ t.cols) (h0 : t.nrows ≠ 0) :
    ∃ r : SegRow, squash_region t = .ok r ∧
      r.chromosome = t.chromosome.getD 0 "" ∧
      r.start = t.start.getD 0 0 ∧
      r.stop = t.stop.getD (t.nrows - 1) 0 ∧
      r.weight = t.weight.sum := by
  refine ⟨_, squash_region_eq t hWF hw h0, rfl, rfl, ?_, rfl⟩
  show t.stop.getD (t.stop.length - 1) 0 = t.stop.getD (t.nrows - 1) 0
  rw [hWF.2.1]

theorem C3_squash_region_bounds_weight_witness :
    ∃ r : SegRow, squash_region tC3 = .ok r ∧
      r.chromosome = tC3.chromosome.getD 0 "" ∧
      r.start = tC3.start.getD 0 0 ∧
      r.stop = tC3.stop.getD (tC3.nrows - 1) 0 ∧
      r.weight = tC3.weight.sum :=
  C3_squash_region_bounds_weight tC3 (by decide) (by decide) (by decide)

/-- **C4.** On every non-empty well-formed group whose total weight is zero,
`squash_region` falls back to unweighted statistics (plain mean for
`log2`/`depth`/`baf`, plain median for `cn` and `cn1`) and completes without
an error or `NaN` result; with positive total weight it uses the weighted
average / weighted median instead. -/
theorem C4_zero_weight_fallback (t : SegTable) (hWF : t.WF)
    (hw : "weight" ∈ t.cols) (h0 : t.nrows ≠ 0) :
    (t.weight.sum = 0 → ∃ r : SegRow, squash_region t = .ok r ∧
      r.log2 = meanVal t.log2 ∧
      ("depth" ∈ t.cols → r.depth = meanVal t.depth) ∧
      ("baf" ∈ t.cols → r.baf = meanVal t.baf) ∧
      ("cn" ∈ t.cols → r.cn = medianVal (t.cn.map (fun z : Int => (z : Rat)))) ∧
      ("cn" ∈ t.cols ∧ "cn1" ∈ t.cols →
        r.cn1 = medianVal (t.cn1.map (fun z : Int => (z : Rat))))) ∧
    (0 < t.weight.sum → ∃ r : SegRow, squash_region t = .ok r ∧
      r.log2 = avgVal t.log2 t.weight ∧
      ("depth" ∈ t.cols → r.depth = avgVal t.depth t.weight) ∧
      ("baf" ∈ t.cols → r.baf = avgVal t.baf t.weight) ∧
      ("cn" ∈ t.cols →
        r.cn = weighted_median (t.cn.map (fun z : Int => (z : Rat))) t.weight) ∧
      ("cn" ∈ t.cols ∧ "cn1" ∈ t.cols →
        r.cn1 = weighted_median (t.cn1.map (fun z : Int => (z : Rat))) t.weight)) := by
  constructor
  · intro hz
    have hrw : ¬ 0 < region_weight t := by
      rw [region_weight, hz]
      exact lt_irrefl 0
    refine ⟨_, squash_region_eq t hWF hw h0, ?_, ?_, ?_, ?_, ?_⟩
    · simp only [if_neg hrw]
    · intro hd
      simp only [if_pos hd, if_neg hrw]
    · intro hb
      simp only [if_pos hb, if_neg hrw]
    · intro hc
      simp only [if_pos hc, if_neg hrw]
    · intro hc
      simp only [if_pos hc, if_neg hrw]
  · intro hp
    have hrw : 0 < region_weight t := hp
    refine ⟨_, squash_region_eq t hWF hw h0, ?_, ?_, ?_, ?_, ?_⟩
    · simp only [if_pos hrw]
    · intro hd
      simp only [if_pos hd, if_pos hrw]
    · intro hb
      simp only [if_pos hb, if_pos hrw]
    · intro hc
      simp only [if_pos hc, if_pos hrw]
    · intro hc
      simp only [if_pos hc, if_pos hrw]

theorem C4_zero_weight_fallback_witness :
    (∃ r : SegRow, squash_region tC4z = .ok r) ∧
    (∃ r : SegRow, squash_region tC4p = .ok r) :=
  ⟨((C4_zero_weight_fallback tC4z (by decide) (by decide) (by decide)).1
      (by norm_num [tC4z])).elim (fun r h => ⟨r, h.1⟩),
    ((C4_zero_weight_fallback tC4p (by decide) (by decide) (by decide)).2
      (by norm_num [tC4p, tC4z])).elim (fun r h => ⟨r, h.1⟩)⟩

/-! ## Utilities for the grouping argument -/

theorem getD_range (n i : Nat) (h : i < n) : (List.range n).getD i 0 = i := by
  rw [List.getD_eq_getElem _ _ (by simpa using h)]
  simp

theorem nodup_getD_inj {α : Type} (l : List α) (h : l.Nodup) (i j : Nat) (d : α)
    (hi : i < l.length) (hj : j < l.length) (heq : l.getD i d = l.getD j d) :
    i = j := by
  rw [List.getD_eq_getElem _ _ hi, List.getD_eq_getElem _ _ hj] at heq
  exact (List.Nodup.getElem_inj_iff h).mp heq

theorem filter_range_eq_single (n m : Nat) (p : Nat → Bool) (hm : m < n)
    (hp : ∀ j, j < n → (p j = true ↔ j = m)) :
    (List.range n).filter p = [m] := by
  induction n with
  | zero => omega
  | succ n ih =>
      rw [List.range_succ, List.filter_append]
      rcases Nat.lt_or_ge m n with hmn | hmn
      · rw [ih hmn (fun j hj => hp j (by omega))]
        have hpn : p n = false := by
          rcases hb : p n with _ | _
          · rfl
          · exact absurd ((hp n (by omega)).mp hb) (by omega)
        simp [hpn]
      · have hm' : m = n := by omega
        subst hm'
        have hpm : p m = true := (hp m (by omega)).mpr rfl
        have hrest : (List.range m).filter p = [] := by
          rw [List.eq_nil_iff_forall_not_mem]
          intro a ha
          have ha' : a ∈ List.range m ∧ p a = true := by
            constructor
            · exact List.mem_of_mem_filter ha
            · exact List.of_mem_filter ha
          have h1 : a < m := List.mem_range.mp ha'.1
          have h2 : a = m := (hp a (by omega)).mp ha'.2
          omega
        rw [hrest]
        simp [hpm]

theorem list_eq_range_map_getD {α : Type} (l : List α) (d : α) :
    l = (List.range l.length).map (fun i => l.getD i d) := by
  induction l with
  | nil => rfl
  | cons x xs ih =>
      rw [List.length_cons, List.range_succ_eq_map, List.map_cons, List.map_map]
      have h0 : (x :: xs).getD 0 d = x := rfl
      rw [h0]
      congr 1

theorem exceptMap_map {ε α β γ : Type} (f : β → Except ε γ) (h : α → β)
    (l : List α) : exceptMap f (l.map h) = exceptMap (fun a => f (h a)) l := by
  induction l with
  | nil => rfl
  | cons a as ih => rw [List.map_cons, exceptMap, exceptMap, ih]

theorem exceptMap_all_ok {ε α β : Type} (f : α → Except ε β) (g : α → β)
    (l : List α) (h : ∀ a ∈ l, f a = .ok (g a)) :
    exceptMap f l = .ok (l.map g) := by
  induction l with
  | nil => rfl
  | cons a as ih =>
      rw [exceptMap, h a (List.mem_cons_self a as), except_ok_bind,
        ih (fun b hb => h b (List.mem_cons_of_mem a hb)), except_ok_map,
        List.map_cons]

/-! ## Singleton evaluations of the aggregation primitives -/

theorem avgVal_single (v w : Rat) (hw : w ≠ 0) : avgVal [v] [w] = v := by
  have h1 : (List.zipWith (· * ·) [v] [w]).sum = v * w := by simp
  have h2 : ([w] : List Rat).sum = w := by simp
  rw [avgVal, h1, h2, mul_div_cancel_right₀ v hw]

theorem meanVal_single (v : Rat) : meanVal [v] = v := by
  simp [meanVal]

theorem medianVal_single (v : Rat) : medianVal [v] = v := by
  norm_num [medianVal, sortRats, insertRat]

theorem weighted_median_single (v w : Rat) : weighted_median [v] [w] = v := by
  simp [weighted_median, sortPairs, insertSorted, wmGo]

theorem maxVal_single (v : Rat) : maxVal [v] = v := rfl

theorem intercalate_single (s a : String) : String.intercalate s [a] = a := rfl

theorem uniqueFirstSeen_single {α : Type} [DecidableEq α] (a : α) :
    uniqueFirstSeen [a] = [a] := by
  simp [uniqueFirstSeen, ufsStep]

theorem list_eq_singleton_getD {α : Type} (l : List α) (d : α)
    (h : l.length = 1) : [l.getD 0 d] = l := by
  cases l with
  | nil => simp at h
  | cons x xs =>
      cases xs with
      | nil => rfl
      | cons y ys => simp at h

theorem selectRows_single_WF (t : SegTable) (i : Nat) : (selectRows t [i]).WF := by
  simp [selectRows, SegTable.WF, SegTable.nrows]

theorem selectRows_single_nrows (t : SegTable) (i : Nat) :
    (selectRows t [i]).nrows = 1 := rfl

theorem selectRows_self (t : SegTable) (hWF : t.WF) (h1 : t.nrows = 1) :
    selectRows t [0] = t := by
  have hch : [t.chromosome.getD 0 ""] = t.chromosome :=
    list_eq_singleton_getD _ _ h1
  have hst : [t.start.getD 0 0] = t.start :=
    list_eq_singleton_getD _ _ (hWF.1.trans h1)
  have hsp : [t.stop.getD 0 0] = t.stop :=
    list_eq_singleton_getD _ _ (hWF.2.1.trans h1)
  have hlg : [t.log2.getD 0 0] = t.log2 :=
    list_eq_singleton_getD _ _ (hWF.2.2.1.trans h1)
  have hwt : [t.weight.getD 0 0] = t.weight :=
    list_eq_singleton_getD _ _ (hWF.2.2.2.1.trans h1)
  have hgn : [t.gene.getD 0 ""] = t.gene :=
    list_eq_singleton_getD _ _ (hWF.2.2.2.2.1.trans h1)
  have hpr : [t.probes.getD 0 0] = t.probes :=
    list_eq_singleton_getD _ _ (hWF.2.2.2.2.2.1.trans h1)
  have hdp : [t.depth.getD 0 0] = t.depth :=
    list_eq_singleton_getD _ _ (hWF.2.2.2.2.2.2.1.trans h1)
  have hbf : [t.baf.getD 0 0] = t.baf :=
    list_eq_singleton_getD _ _ (hWF.2.2.2.2.2.2.2.1.trans h1)
  have hcn : [t.cn.getD 0 0] = t.cn :=
    list_eq_singleton_getD _ _ (hWF.2.2.2.2.2.2.2.2.1.trans h1)
  have hc1 : [t.cn1.getD 0 0] = t.cn1 :=
    list_eq_singleton_getD _ _ (hWF.2.2.2.2.2.2.2.2.2.1.trans h1)
  have hc2 : [t.cn2.getD 0 0] = t.cn2 :=
    list_eq_singleton_getD _ _ (hWF.2.2.2.2.2.2.2.2.2.2.1.trans h1)
  have hpb : [t.p_bintest.getD 0 0] = t.p_bintest :=
    list_eq_singleton_getD _ _ (hWF.2.2.2.2.2.2.2.2.2.2.2.1.trans h1)
  have hlo : [t.ci_lo.getD 0 0] = t.ci_lo :=
    list_eq_singleton_getD _ _ (hWF.2.2.2.2.2.2.2.2.2.2.2.2.1.trans h1)
  have hhi : [t.ci_hi.getD 0 0] = t.ci_hi :=
    list_eq_singleton_getD _ _ (hWF.2.2.2.2.2.2.2.2.2.2.2.2.2.1.trans h1)
  have hac : [t.aberrant_cell_frac.getD 0 0] = t.aberrant_cell_frac :=
    list_eq_singleton_getD _ _ (hWF.2.2.2.2.2.2.2.2.2.2.2.2.2.2.trans h1)
  show SegTable.mk t.cols [t.chromosome.getD 0 ""] [t.start.getD 0 0]
      [t.stop.getD 0 0] [t.log2.getD 0 0] [t.weight.getD 0 0]
      [t.gene.getD 0 ""] [t.probes.getD 0 0] [t.depth.getD 0 0]
      [t.baf.getD 0 0] [t.cn.getD 0 0] [t.cn1.getD 0 0] [t.cn2.getD 0 0]
      [t.p_bintest.getD 0 0] [t.ci_lo.getD 0 0] [t.ci_hi.getD 0 0]
      [t.aberrant_cell_frac.getD 0 0] = t
  rw [hch, hst, hsp, hlg, hwt, hgn, hpr, hdp, hbf, hcn, hc1, hc2, hpb, hlo,
    hhi, hac]

/-- Squashing a singleton group reproduces the row's own values. -/
theorem squash_region_single (t : SegTable) (i : Nat) (hw : "weight" ∈ t.cols)
    (hcn2 : "cn" ∈ t.cols ∧ "cn1" ∈ t.cols →
      t.cn.getD i 0 = t.cn1.getD i 0 + t.cn2.getD i 0) :
    ∃ r : SegRow, squash_region (selectRows t [i]) = .ok r ∧
      MatchesInput t i r := by
  have hWF : (selectRows t [i]).WF := selectRows_single_WF t i
  have h0 : (selectRows t [i]).nrows ≠ 0 := by
    rw [selectRows_single_nrows]
    exact one_ne_zero
  have hws : "weight" ∈ (selectRows t [i]).cols := hw
  have hrs : region_weight (selectRows t [i]) = t.weight.getD i 0 := by
    simp [region_weight, selectRows]
  refine ⟨_, squash_region_eq _ hWF hws h0, ?_, ?_, ?_, ?_, ?_, ?_, ?_, ?_,
    ?_, ?_, ?_, ?_⟩
  · rfl
  · rfl
  · rfl
  · -- log2
    by_cases h : 0 < region_weight (selectRows t [i])
    · show (if 0 < region_weight (selectRows t [i]) then
          avgVal (selectRows t [i]).log2 (selectRows t [i]).weight
        else meanVal (selectRows t [i]).log2) = t.log2.getD i 0
      rw [if_pos h]
      exact avgVal_single (t.log2.getD i 0) (t.weight.getD i 0)
        (ne_of_gt (hrs ▸ h))
    · show (if 0 < region_weight (selectRows t [i]) then
          avgVal (selectRows t [i]).log2 (selectRows t [i]).weight
        else meanVal (selectRows t [i]).log2) = t.log2.getD i 0
      rw [if_neg h]
      exact meanVal_single _
  · -- gene
    show String.intercalate "," (uniqueFirstSeen (selectRows t [i]).gene) =
      t.gene.getD i ""
    have : (selectRows t [i]).gene = [t.gene.getD i ""] := rfl
    rw [this, uniqueFirstSeen_single, intercalate_single]
  · -- weight
    exact hrs
  · -- probes
    intro hp
    show (if "probes" ∈ (selectRows t [i]).cols then
        (selectRows t [i]).probes.sum else ((selectRows t [i]).nrows : Int)) =
      t.probes.getD i 0
    rw [if_pos (show "probes" ∈ (selectRows t [i]).cols from hp)]
    simp [selectRows]
  · -- depth
    intro hd
    show (if "depth" ∈ (selectRows t [i]).cols then
        (if 0 < region_weight (selectRows t [i]) then
          avgVal (selectRows t [i]).depth (selectRows t [i]).weight
        else meanVal (selectRows t [i]).depth) else 0) = t.depth.getD i 0
    rw [if_pos (show "depth" ∈ (selectRows t [i]).cols from hd)]
    by_cases h : 0 < region_weight (selectRows t [i])
    · rw [if_pos h]
      exact avgVal_single (t.depth.getD i 0) (t.weight.getD i 0)
        (ne_of_gt (hrs ▸ h))
    · rw [if_neg h]
      exact meanVal_single _
  · -- baf
    intro hb
    show (if "baf" ∈ (selectRows t [i]).cols then
        (if 0 < region_weight (selectRows t [i]) then
          avgVal (selectRows t [i]).baf (selectRows t [i]).weight
        else meanVal (selectRows t [i]).baf) else 0) = t.baf.getD i 0
    rw [if_pos (show "baf" ∈ (selectRows t [i]).cols from hb)]
    by_cases h : 0 < region_weight (selectRows t [i])
    · rw [if_pos h]
      exact avgVal_single (t.baf.getD i 0) (t.weight.getD i 0)
        (ne_of_gt (hrs ▸ h))
    · rw [if_neg h]
      exact meanVal_single _
  · -- cn
    intro hc
    show (if "cn" ∈ (selectRows t [i]).cols then
        (if 0 < region_weight (selectRows t [i]) then
          weighted_median ((selectRows t [i]).cn.map (fun z : Int => (z : Rat)))
            (selectRows t [i]).weight
        else medianVal ((selectRows t [i]).cn.map (fun z : Int => (z : Rat))))
        else 0) = (t.cn.getD i 0 : Rat)
    rw [if_pos (show "cn" ∈ (selectRows t [i]).cols from hc)]
    by_cases h : 0 < region_weight (selectRows t [i])
    · rw [if_pos h]
      exact weighted_median_single _ _
    · rw [if_neg h]
      exact medianVal_single _
  · -- cn1 and cn2
    intro hc
    constructor
    · show (if "cn" ∈ (selectRows t [i]).cols ∧ "cn1" ∈ (selectRows t [i]).cols
          then (if 0 < region_weight (selectRows t [i]) then
            weighted_median
              ((selectRows t [i]).cn1.map (fun z : Int => (z : Rat)))
              (selectRows t [i]).weight
          else medianVal
            ((selectRows t [i]).cn1.map (fun z : Int => (z : Rat))))
          else 0) = (t.cn1.getD i 0 : Rat)
      rw [if_pos (show "cn" ∈ (selectRows t [i]).cols ∧
        "cn1" ∈ (selectRows t [i]).cols from hc)]
      by_cases h : 0 < region_weight (selectRows t [i])
      · rw [if_pos h]
        exact weighted_median_single _ _
      · rw [if_neg h]
        exact medianVal_single _
    · show ((if "cn" ∈ (selectRows t [i]).cols then
          (if 0 < region_weight (selectRows t [i]) then
            weighted_median ((selectRows t [i]).cn.map (fun z : Int => (z : Rat)))
              (selectRows t [i]).weight
          else medianVal ((selectRows t [i]).cn.map (fun z : Int => (z : Rat))))
          else 0) -
        (if "cn" ∈ (selectRows t [i]).cols ∧ "cn1" ∈ (selectRows t [i]).cols
          then (if 0 < region_weight (selectRows t [i]) then
            weighted_median
              ((selectRows t [i]).cn1.map (fun z : Int => (z : Rat)))
              (selectRows t [i]).weight
          else medianVal
            ((selectRows t [i]).cn1.map (fun z : Int => (z : Rat))))
          else 0)) = (t.cn2.getD i 0 : Rat)
      rw [if_pos (show "cn" ∈ (selectRows t [i]).cols from hc.1),
        if_pos (show "cn" ∈ (selectRows t [i]).cols ∧
          "cn1" ∈ (selectRows t [i]).cols from hc)]
      have hval : t.cn.getD i 0 = t.cn1.getD i 0 + t.cn2.getD i 0 := hcn2 hc
      by_cases h : 0 < region_weight (selectRows t [i])
      · rw [if_pos h,
          show weighted_median ((selectRows t [i]).cn.map
              (fun z : Int => (z : Rat))) (selectRows t [i]).weight =
            ((t.cn.getD i 0 : Int) : Rat) from weighted_median_single _ _,
          show weighted_median ((selectRows t [i]).cn1.map
              (fun z : Int => (z : Rat))) (selectRows t [i]).weight =
            ((t.cn1.getD i 0 : Int) : Rat) from weighted_median_single _ _]
        rw [if_pos h, hval]
        push_cast
        ring
      · rw [if_neg h,
          show medianVal ((selectRows t [i]).cn.map
              (fun z : Int => (z : Rat))) = ((t.cn.getD i 0 : Int) : Rat) from
            medianVal_single _,
          show medianVal ((selectRows t [i]).cn1.map
              (fun z : Int => (z : Rat))) = ((t.cn1.getD i 0 : Int) : Rat) from
            medianVal_single _]
        rw [if_neg h, hval]
        push_cast
        ring
  · -- p_bintest
    intro hp
    show (if "p_bintest" ∈ (selectRows t [i]).cols then
        maxVal (selectRows t [i]).p_bintest else 0) = t.p_bintest.getD i 0
    rw [if_pos (show "p_bintest" ∈ (selectRows t [i]).cols from hp)]
    exact maxVal_single _

theorem group_keys_length (t : SegTable) (levels : List Int) (by_arm : Bool)
    (armBlocks : List Nat) (hWF : t.WF) (hlev : levels.length = t.nrows)
    (harm : by_arm = true → (armOrdinals armBlocks).length = t.nrows) :
    (group_keys t levels by_arm armBlocks).length = t.nrows := by
  have hgc := group_col_length t levels by_arm armBlocks hlev harm
  by_cases hcn1 : "cn1" ∈ t.cols
  · rw [group_keys, if_pos hcn1]
    simp [hgc, enumerate_changes_length, hWF.2.2.2.2.2.2.2.2.2.1,
      hWF.2.2.2.2.2.2.2.2.2.2.1]
  · rw [group_keys, if_neg hcn1]
    simp [hgc]

/-- **C5.** Squashing is idempotent on singletons: a one-row group squashes to
that row's own values, and when every composite group of a table already has
size one (the row keys are pairwise distinct), `squash_by_groups` returns a
table equal to the input on the column set the squasher recomputes. -/
theorem C5_singleton_idempotence (t : SegTable) (levels : List Int)
    (hWF : t.WF) (hw : "weight" ∈ t.cols) (hlev : levels.length = t.nrows)
    (hcn2 : "cn" ∈ t.cols ∧ "cn1" ∈ t.cols →
      ∀ i, i < t.nrows → t.cn.getD i 0 = t.cn1.getD i 0 + t.cn2.getD i 0)
    (hnodup : (group_keys t levels false []).Nodup) :
    (t.nrows = 1 → ∃ r : SegRow, squash_region t = .ok r ∧ MatchesInput t 0 r) ∧
    (∃ rows : List SegRow, squash_by_groups t levels false [] = .ok rows ∧
      rows.length = t.nrows ∧
      ∀ i, i < t.nrows → MatchesInput t i (rows.getD i default)) := by
  constructor
  · intro h1
    obtain ⟨r, hr, hm⟩ := squash_region_single t 0 hw
      (fun hc => hcn2 hc 0 (by omega))
    rw [selectRows_self t hWF h1] at hr
    exact ⟨r, hr, hm⟩
  · have hkl : (group_keys t levels false []).length = t.nrows :=
      group_keys_length t levels false [] hWF hlev (by intro h; cases h)
    have hfil : ∀ i, i < t.nrows →
        (List.range t.nrows).filter
          (fun j => decide ((group_keys t levels false []).getD j (0, 0, 0) =
            (group_keys t levels false []).getD i (0, 0, 0))) = [i] := by
      intro i hi
      apply filter_range_eq_single _ _ _ hi
      intro j hj
      constructor
      · intro hdec
        exact nodup_getD_inj _ hnodup j i _ (by rw [hkl]; exact hj)
          (by rw [hkl]; exact hi) (of_decide_eq_true hdec)
      · intro hji
        subst hji
        exact decide_eq_true rfl
    set g : Nat → SegRow := fun i =>
      ((squash_region (selectRows t [i])).toOption).getD default with hg
    have hall : ∀ i, i < t.nrows →
        squash_region (selectRows t [i]) = .ok (g i) ∧
          MatchesInput t i (g i) := by
      intro i hi
      obtain ⟨r, hr, hm⟩ := squash_region_single t i hw
        (fun hc => hcn2 hc i hi)
      have hgi : g i = r := by
        rw [hg]
        show ((squash_region (selectRows t [i])).toOption).getD default = r
        rw [hr]
        rfl
      rw [hgi]
      exact ⟨hr, hm⟩
    refine ⟨(List.range t.nrows).map g, ?_, ?_, ?_⟩
    · have hsq : squash_by_groups t levels false [] =
          exceptMap (fun k => squash_region (selectRows t
            ((List.range t.nrows).filter (fun j =>
              decide ((group_keys t levels false []).getD j (0, 0, 0) = k)))))
            (uniqueFirstSeen (group_keys t levels false [])) := rfl
      rw [hsq, uniqueFirstSeen_of_nodup _ hnodup]
      have hkeys := list_eq_range_map_getD (group_keys t levels false [])
        (0, 0, 0)
      rw [hkl] at hkeys
      have e1 := congrArg (exceptMap (fun k => squash_region (selectRows t
            ((List.range t.nrows).filter (fun j =>
              decide ((group_keys t levels false []).getD j (0, 0, 0) = k))))))
        hkeys
      rw [e1, exceptMap_map]
      apply exceptMap_all_ok
      intro a ha
      have hai : a < t.nrows := List.mem_range.mp ha
      rw [hfil a hai]
      exact (hall a hai).1
    · simp
    · intro i hi
      have hgd : ((List.range t.nrows).map g).getD i default = g i := by
        rw [map_getD g _ i 0 default (by simpa using hi), getD_range _ _ hi]
      rw [hgd]
      exact (hall i hi).2

theorem C5_singleton_idempotence_witness :
    ∃ rows : List SegRow, squash_by_groups tC5 [0, 1] false [] = .ok rows ∧
      rows.length = tC5.nrows ∧
      ∀ i, i < tC5.nrows → MatchesInput tC5 i (rows.getD i default) :=
  (C5_singleton_idempotence tC5 [0, 1] (by decide) (by decide) (by decide)
    (fun hc => absurd hc.2 (by decide)) (by decide)).2

/-! ## C6, C7: the required-column gate and the unimplemented `bic` filter -/

theorem string_data_append (s t : String) : (s ++ t).data = s.data ++ t.data :=
  rfl

theorem mem_infix_quoteJoin (c : String) :
    ∀ l : List String, c ∈ l → c.data <:+: (quoteJoin l).data := by
  intro l
  induction l with
  | nil => intro h; simp at h
  | cons d rest ih =>
      intro hc
      cases rest with
      | nil =>
          have hcd : c = d := by simpa using hc
          subst hcd
          exact ⟨"\x27".data, "\x27".data,
            by simp [quoteJoin, string_data_append, List.append_assoc]⟩
      | cons e rest2 =>
          rcases List.mem_cons.mp hc with h | h
          · subst h
            exact ⟨"\x27".data, ("\x27, " ++ quoteJoin (e :: rest2)).data,
              by simp [quoteJoin, string_data_append, List.append_assoc]⟩
          · refine (ih h).trans
              ⟨("\x27" ++ d ++ "\x27, ").data, [], ?_⟩
            simp [quoteJoin, string_data_append, List.append_assoc]

theorem filtname_infix_require_msg (filtname : String) (colnames : List String) :
    filtname.data <:+: (require_msg filtname colnames).data := by
  cases colnames with
  | nil =>
      exact ⟨"\x27".data,
        ("\x27 filter requires columns " ++ quoteJoin []).data,
        by simp [require_msg, string_data_append, List.append_assoc]⟩
  | cons d rest =>
      cases rest with
      | nil =>
          exact ⟨"\x27".data,
            ("\x27 filter requires column \x27" ++ d ++ "\x27").data,
            by simp [require_msg, string_data_append, List.append_assoc]⟩
      | cons e rest2 =>
          exact ⟨"\x27".data,
            ("\x27 filter requires columns " ++ quoteJoin (d :: e :: rest2)).data,
            by simp [require_msg, string_data_append, List.append_assoc]⟩

theorem mem_infix_require_msg (filtname c : String) (colnames : List String)
    (hc : c ∈ colnames) :
    c.data <:+: (require_msg filtname colnames).data := by
  cases colnames with
  | nil => simp at hc
  | cons d rest =>
      cases rest with
      | nil =>
          have hcd : c = d := by simpa using hc
          subst hcd
          exact ⟨("\x27" ++ filtname ++ "\x27 filter requires column \x27").data,
            "\x27".data,
            by simp [require_msg, string_data_append, List.append_assoc]⟩
      | cons e rest2 =>
          refine (mem_infix_quoteJoin c _ hc).trans
            ⟨("\x27" ++ filtname ++ "\x27 filter requires columns ").data, [],
              ?_⟩
          simp [require_msg, string_data_append, List.append_assoc]

/-- **C6.** For every filter (gate name and required-column list) and every
table missing at least one required column, the gate raises the `ValueError`
before the filter body runs (the result does not depend on the body, and no
output table is produced); the message names the filter and every required
column, the missing one(s) included. -/
theorem C6_require_column_gate (filtname : String) (colnames : List String)
    (func : SegTable → Except PyError FilterOutcome) (t : SegTable)
    (c : String) (hc : c ∈ colnames) (hmiss : c ∉ t.cols) :
    require_column_wrap filtname colnames func t =
      .error (.valueError (require_msg filtname colnames)) ∧
    filtname.data <:+: (require_msg filtname colnames).data ∧
    (∀ m, m ∈ colnames → m.data <:+: (require_msg filtname colnames).data) ∧
    (∀ func', require_column_wrap filtname colnames func' t =
      require_column_wrap filtname colnames func t) := by
  have hany : (colnames.any (fun c => decide (c ∉ t.cols))) = true :=
    List.any_eq_true.mpr ⟨c, hc, decide_eq_true hmiss⟩
  refine ⟨?_, filtname_infix_require_msg filtname colnames,
    fun m hm => mem_infix_require_msg filtname m colnames hm, ?_⟩
  · rw [require_column_wrap, if_pos hany]
  · intro func'
    rw [require_column_wrap, if_pos hany, require_column_wrap, if_pos hany]

theorem C6_require_column_gate_witness :
    ci tC6 = .error (.valueError (require_msg "ci" ["ci_lo", "ci_hi"])) ∧
    "ci".data <:+: (require_msg "ci" ["ci_lo", "ci_hi"]).data ∧
    "ci_hi".data <:+: (require_msg "ci" ["ci_lo", "ci_hi"]).data :=
  have h := C6_require_column_gate "ci" ["ci_lo", "ci_hi"] ci_body tC6 "ci_hi"
    (by decide) (by decide)
  ⟨h.1, h.2.1, h.2.2.1 "ci_hi" (by decide)⟩

/-- **C7 (code bug).** On a table containing the `depth` column the gate
passes and `bic`'s body performs no computation on the table and returns the
`NotImplemented` sentinel — but the wrapper then evaluates `len(result)` for
its row-count log line, and `len(NotImplemented)` raises `TypeError`.  So the
invocation raises an unrelated error instead of yielding the explicit
unimplemented result to the caller, contradicting the claim (and the spec's
intent, which the body's `return NotImplemented` itself documents). -/
theorem C7_bic_raises_typeerror :
    "depth" ∈ tC7.cols ∧
    bic tC7 = .error
      (.typeError "object of type \x27NotImplementedType\x27 has no len()") ∧
    (∀ t : SegTable, "depth" ∈ t.cols →
      bic t = .error
        (.typeError "object of type \x27NotImplementedType\x27 has no len()")) := by
  have hbic : ∀ t : SegTable, "depth" ∈ t.cols →
      bic t = .error
        (.typeError "object of type \x27NotImplementedType\x27 has no len()") := by
    intro t ht
    show require_column_wrap "bic" ["depth"] (fun _ => .ok .notImplemented) t = _
    rw [require_column_wrap, if_neg (by simp [ht])]
    rfl
  exact ⟨by decide, hbic tC7 (by decide), hbic⟩

/-! ## C8: `cn_subclone` scratch columns -/

/-- **C8 counterexample.** The claim that `cn_subclone` leaves the caller's
table unchanged fails: on a table without scratch columns, the fingerprint
loop writes the `hash` and `level` columns into the caller's dataframe
(`df = segarr.data` aliases it), so after the call the caller's column set
has grown. -/
theorem C8_cn_subclone_counterexample :
    "hash" ∉ tC8.cols ∧ "level" ∉ tC8.cols ∧
    "hash" ∈ cn_subclone_caller_cols_after tC8 ∧
    "level" ∈ cn_subclone_caller_cols_after tC8 ∧
    cn_subclone_caller_cols_after tC8 ≠ tC8.cols := by
  decide

/-- **C8 (amended).** `cn_subclone` computes its scratch columns (`hash`, the
fingerprint digest, and `level`, the fingerprint ordinal) directly on the
caller's table rather than a private copy: on a nonempty table both columns
are written back into the caller's column set, while on a zero-row table the
`df['hash']` lookup raises `KeyError('hash')` before any scratch column is
created and the caller's columns stay unchanged.  The scratch columns never
appear in the output table's schema, which is `squash_region_cols` of the
grouped data's columns. -/
theorem C8_cn_subclone_scratch_columns (t : SegTable) (h1 : "hash" ∉ t.cols)
    (h2 : "level" ∉ t.cols) :
    (t.nrows ≠ 0 →
      cn_subclone_caller_cols_after t = t.cols ++ ["hash", "level"]) ∧
    (t.nrows = 0 → cn_subclone_caller_cols_after t = t.cols ∧
      cn_subclone_body t = .error (.keyError "hash")) ∧
    (∀ cols' : List String, "hash" ∉ squash_region_cols cols' ∧
      "level" ∉ squash_region_cols cols') := by
  refine ⟨?_, ?_, ?_⟩
  · intro h0
    rw [cn_subclone_caller_cols_after, if_neg (fun hc => h0 hc.1), if_neg h1,
      if_neg h2, List.append_assoc]
    rfl
  · intro h0
    constructor
    · rw [cn_subclone_caller_cols_after, if_pos ⟨h0, h1⟩]
    · rw [cn_subclone_body, if_pos ⟨h0, h1⟩]
  · intro cols'
    constructor
    · simp only [squash_region_cols]
      split_ifs <;> decide
    · simp only [squash_region_cols]
      split_ifs <;> decide

theorem C8_cn_subclone_scratch_columns_witness :
    (cn_subclone_caller_cols_after tC8 = tC8.cols ++ ["hash", "level"]) ∧
    (cn_subclone_caller_cols_after tC8e = tC8e.cols ∧
      cn_subclone_body tC8e = .error (.keyError "hash")) ∧
    "hash" ∉ squash_region_cols tC8.cols ∧
    "level" ∉ squash_region_cols tC8.cols :=
  have h := C8_cn_subclone_scratch_columns tC8 (by decide) (by decide)
  have he := C8_cn_subclone_scratch_columns tC8e (by decide) (by decide)
  ⟨h.1 (by decide), he.2.1 (by decide), (h.2.2 tC8.cols).1, (h.2.2 tC8.cols).2⟩

/-! ## C9: the `log2` filter writes level 0 in both branches -/

theorem ecAux_replicate_zero (acc : Int) :
    ∀ n : Nat, ecAux 0 acc (List.replicate n 0) = List.replicate n acc := by
  intro n
  induction n with
  | zero => rfl
  | succ n ih => simp [List.replicate_succ, ecAux, ih]

theorem enumerate_changes_replicate_zero (n : Nat) :
    enumerate_changes (List.replicate n 0) = List.replicate n 0 := by
  cases n with
  | zero => rfl
  | succ n =>
      simp [List.replicate_succ, enumerate_changes, ecAux_replicate_zero]

theorem getD_replicate {α : Type} (n i : Nat) (a d : α) (h : i < n) :
    (List.replicate n a).getD i d = a := by
  induction n generalizing i with
  | zero => omega
  | succ n ih =>
      cases i with
      | zero => simp [List.replicate_succ, List.getD]
      | succ i => simpa [List.replicate_succ, List.getD] using ih i (by omega)

theorem log2_levels_eq_replicate (t : SegTable) :
    log2_levels t = List.replicate t.nrows 0 := by
  rw [log2_levels]
  have h1 : ∀ a ∈ List.range t.nrows,
      (fun i =>
        let l0 : Int := 0
        let l1 := if t.log2.getD i 0 > -0.15 ∧
            t.baf.getD i 0 < calculate_min_baf_del 0.2 then 0 else l0
        if t.log2.getD i 0 < 0.14 ∧
            t.baf.getD i 0 < calculate_min_baf_amp 0.2 then 0 else l1) a
      = (fun _ : Nat => (0 : Int)) a := by
    intro a _
    simp only []
    split_ifs <;> rfl
  rw [List.map_congr_left h1, List.map_const', List.length_range]

/-- **C9 counterexample.** It is not true that the `log2` filter's grouping
collapses each chromosome's rows into one group: on a table carrying a `cn1`
column, the allele-run key components still split rows of one chromosome. -/
theorem C9_log2_counterexample :
    tC9.chromosome.getD 0 "" = tC9.chromosome.getD 1 "" ∧
    (group_keys tC9 (log2_levels tC9) false []).getD 0 (0, 0, 0) ≠
      (group_keys tC9 (log2_levels tC9) false []).getD 1 (0, 0, 0) := by
  have hrep := log2_levels_eq_replicate tC9
  refine ⟨by decide, ?_⟩
  rw [hrep]
  decide

/-- **C9 (amended).** The `log2` filter's level assignment writes 0 in both
condition branches, so every row receives level 0, and the level-run key
never splits anything; in a table without allele-specific `cn1`/`cn2`
columns, two rows share a composite group key exactly when they lie on the
same chromosome (with `cn1` present the allele-run keys may still split a
chromosome, see the counterexample). -/
theorem C9_log2_level_zero_grouping (t : SegTable) (hWF : t.WF)
    (_hlog : "log2" ∈ t.cols) (_hbaf : "baf" ∈ t.cols) :
    log2_levels t = List.replicate t.nrows 0 ∧
    ("cn1" ∉ t.cols → ∀ i j, i < t.nrows → j < t.nrows →
      ((group_keys t (log2_levels t) false []).getD i (0, 0, 0) =
        (group_keys t (log2_levels t) false []).getD j (0, 0, 0) ↔
        t.chromosome.getD i "" = t.chromosome.getD j "")) := by
  have hrep := log2_levels_eq_replicate t
  have hlev : (log2_levels t).length = t.nrows := by
    rw [hrep, List.length_replicate]
  refine ⟨hrep, ?_⟩
  intro hcn1 i j hi hj
  have hk_i := group_keys_getD t (log2_levels t) false [] i hWF hlev
    (by intro h; cases h) hi
  have hk_j := group_keys_getD t (log2_levels t) false [] j hWF hlev
    (by intro h; cases h) hj
  rw [hk_i, hk_j]
  simp only [if_neg hcn1]
  have hec : ∀ m, m < t.nrows →
      (enumerate_changes (log2_levels t)).getD m 0 = 0 := by
    intro m hm
    rw [hrep, enumerate_changes_replicate_zero, getD_replicate _ _ _ _ hm]
  have hgc_i := group_col_getD_false t (log2_levels t) [] i hlev hi
  have hgc_j := group_col_getD_false t (log2_levels t) [] j hlev hj
  have hmi : t.chromosome.getD i "" ∈ uniqueFirstSeen t.chromosome :=
    (mem_uniqueFirstSeen _ _).mpr (getD_mem _ i "" hi)
  have hmj : t.chromosome.getD j "" ∈ uniqueFirstSeen t.chromosome :=
    (mem_uniqueFirstSeen _ _).mpr (getD_mem _ j "" hj)
  constructor
  · intro heq
    have h1 : (group_col t (log2_levels t) false []).getD i 0 =
        (group_col t (log2_levels t) false []).getD j 0 :=
      congrArg Prod.fst heq
    rw [hgc_i, hgc_j, hec i hi, hec j hj] at h1
    simp only [zero_add] at h1
    have h2 : (uniqueFirstSeen t.chromosome).indexOf (t.chromosome.getD i "") =
        (uniqueFirstSeen t.chromosome).indexOf (t.chromosome.getD j "") :=
      Int.ofNat.inj h1
    exact (List.indexOf_inj hmi hmj).mp h2
  · intro hchrom
    have h1 : (group_col t (log2_levels t) false []).getD i 0 =
        (group_col t (log2_levels t) false []).getD j 0 := by
      rw [hgc_i, hgc_j, hec i hi, hec j hj, hchrom]
    rw [h1]

theorem C9_log2_level_zero_grouping_witness :
    log2_levels tC9b = List.replicate tC9b.nrows 0 ∧
    ((group_keys tC9b (log2_levels tC9b) false []).getD 0 (0, 0, 0) =
      (group_keys tC9b (log2_levels tC9b) false []).getD 1 (0, 0, 0) ↔
      tC9b.chromosome.getD 0 "" = tC9b.chromosome.getD 1 "") :=
  have h := C9_log2_level_zero_grouping tC9b (by decide) (by decide) (by decide)
  ⟨h.1, h.2 (by decide) 0 1 (by decide) (by decide)⟩

/-! ## C10: the `log2` filter body fails on a missing `baf` column -/

/-- **C10.** A table with `log2` but without `baf` passes the gate's
required-column check (which lists only `log2`), then the filter body fails
with the column-lookup `KeyError('baf')` — an error of a different kind from
the gate's structured `ValueError` — and no output table is produced. -/
theorem C10_log2_missing_baf_keyerror :
    ("log2" ∈ tC10.cols ∧ "baf" ∉ tC10.cols) ∧
    log2 tC10 = .error (.keyError "baf") ∧
    (∀ msg : String, (PyError.keyError "baf") ≠ PyError.valueError msg) := by
  refine ⟨by decide, ?_, ?_⟩
  · show require_column_wrap "log2" ["log2"] log2_body tC10 = _
    rw [require_column_wrap, if_neg (by decide)]
    rw [log2_body, if_neg (by decide)]
    rfl
  · intro msg h
    cases h
